import Mathlib

/-!
# SnakeGame: a shallow embedding of `snakegame.cpp`

The widget class `SnakeGame` is embedded as a record of its data members and
its member functions as pure state-passing functions.

* Grid coordinates (`QPoint`) are pairs of mathematical integers.  The C++
  code uses `int`; the two agree as long as no signed overflow happens, and
  the only arithmetic is a shift by one unit.
* `QRandomGenerator::global()` is embedded as the infinite stream of the
  values it is going to hand out (`Rng`); `bounded highest` takes the next
  value of the stream, reduced into `[0, highest)` as the library documents.
* `spawnFood` contains an unbounded `while` loop.  It is embedded with a
  fuel argument that bounds the number of loop iterations; `none` stands for
  running out of fuel.  `moveSnake` and `checkCollision` read `snake.first()`;
  on an empty vector that read is undefined and the embedding returns `none`.
* The board size is a pair of parameters `W H` of every function that uses
  it; the constants of the header are `BOARD_WIDTH` and `BOARD_HEIGHT`.
* Painting (`paintEvent`, `update()`) has no effect on the game state and is
  left out.  The timer is kept as the flag `timerActive`.
-/

/-- A grid position `(x, y)`. -/
abbrev QPoint := Int × Int

/-- The enum `Direction` of the header. -/
inductive Direction where
  | UP
  | DOWN
  | LEFT
  | RIGHT
  deriving DecidableEq, Repr

/-- The data members of the class `SnakeGame`. -/
structure SnakeGame where
  snake : List QPoint
  food : QPoint
  dir : Direction
  inGame : Bool
  timerActive : Bool
  deriving DecidableEq, Repr

/-- The keys that `keyPressEvent` distinguishes; `Other` is the `default` branch. -/
inductive Key where
  | Key_Left
  | Key_Right
  | Key_Up
  | Key_Down
  | Key_Space
  | Other
  deriving DecidableEq, Repr

/-- The events the widget receives: a timer tick or a key press. -/
inductive Event where
  | tick
  | key (k : Key)
  deriving DecidableEq, Repr

namespace SnakeGame

/-- The number of cells horizontally. -/
def BOARD_WIDTH : Int := 20

/-- The number of cells vertically. -/
def BOARD_HEIGHT : Int := 20

/-- The stream of values the global random generator is going to return. -/
abbrev Rng := Nat → Nat

/-- The call `QRandomGenerator::global()->bounded(highest)`: the next value of
the stream, in `[0, highest)`, and the rest of the stream. -/
def bounded (g : Rng) (highest : Int) : Int × Rng :=
  ((g 0 : Int) % highest, fun i => g (i + 1))

/-- The loop `while (snake.contains(food)) { x = ...; y = ...; food = QPoint(x, y); }`
of `spawnFood`, with at most `fuel` iterations. -/
def spawnFoodLoop (W H : Int) : Nat → Rng → SnakeGame → Option (SnakeGame × Rng)
  | 0, g, s => if s.snake.contains s.food then none else some (s, g)
  | fuel + 1, g, s =>
    if s.snake.contains s.food then
      let x := bounded g W
      let y := bounded x.2 H
      spawnFoodLoop W H fuel y.2 { s with food := (x.1, y.1) }
    else some (s, g)

/-- The function `SnakeGame::spawnFood`. -/
def spawnFood (W H : Int) (fuel : Nat) (g : Rng) (s : SnakeGame) :
    Option (SnakeGame × Rng) :=
  let x := bounded g W
  let y := bounded x.2 H
  spawnFoodLoop W H fuel y.2 { s with food := (x.1, y.1) }

/-- The function `SnakeGame::initGame`. -/
def initGame (W H : Int) (fuel : Nat) (g : Rng) (s : SnakeGame) :
    Option (SnakeGame × Rng) :=
  spawnFood W H fuel g
    { s with
      snake := [(Int.tdiv W 2, Int.tdiv H 2), (Int.tdiv W 2 - 1, Int.tdiv H 2),
                (Int.tdiv W 2 - 2, Int.tdiv H 2)]
      dir := Direction.RIGHT
      inGame := true }

/-- The `switch (dir)` of `moveSnake`: the head shifted by one cell. -/
def newHead (dir : Direction) (head : QPoint) : QPoint :=
  match dir with
  | Direction.LEFT => (head.1 - 1, head.2)
  | Direction.RIGHT => (head.1 + 1, head.2)
  | Direction.UP => (head.1, head.2 - 1)
  | Direction.DOWN => (head.1, head.2 + 1)

/-- The function `SnakeGame::moveSnake`. -/
def moveSnake (W H : Int) (fuel : Nat) (g : Rng) (s : SnakeGame) :
    Option (SnakeGame × Rng) :=
  match s.snake with
  | [] => none
  | first :: _ =>
    let head := newHead s.dir first
    let s1 := { s with snake := head :: s.snake }
    if head == s.food then spawnFood W H fuel g s1
    else some ({ s1 with snake := s1.snake.dropLast }, g)

/-- The wall test of `checkCollision`. -/
def hitsWall (W H : Int) (head : QPoint) : Bool :=
  decide (head.1 < 0) || decide (head.1 ≥ W) || decide (head.2 < 0) || decide (head.2 ≥ H)

/-- The function `SnakeGame::checkCollision`. -/
def checkCollision (W H : Int) (s : SnakeGame) : Option SnakeGame :=
  match s.snake with
  | [] => none
  | head :: rest =>
    let s1 := if hitsWall W H head then { s with inGame := false } else s
    let s2 := if rest.any (fun c => c == head) then { s1 with inGame := false } else s1
    some (if !s2.inGame then { s2 with timerActive := false } else s2)

/-- The slot `SnakeGame::updateGame`, one tick of the game. -/
def updateGame (W H : Int) (fuel : Nat) (g : Rng) (s : SnakeGame) :
    Option (SnakeGame × Rng) :=
  if s.inGame then
    (moveSnake W H fuel g s).bind fun r => (checkCollision W H r.1).map fun s2 => (s2, r.2)
  else some (s, g)

/-- The function `SnakeGame::keyPressEvent`. -/
def keyPressEvent (W H : Int) (fuel : Nat) (g : Rng) (k : Key) (s : SnakeGame) :
    Option (SnakeGame × Rng) :=
  match k with
  | Key.Key_Left =>
    some (if s.dir ≠ Direction.RIGHT then { s with dir := Direction.LEFT } else s, g)
  | Key.Key_Right =>
    some (if s.dir ≠ Direction.LEFT then { s with dir := Direction.RIGHT } else s, g)
  | Key.Key_Up =>
    some (if s.dir ≠ Direction.DOWN then { s with dir := Direction.UP } else s, g)
  | Key.Key_Down =>
    some (if s.dir ≠ Direction.UP then { s with dir := Direction.DOWN } else s, g)
  | Key.Key_Space =>
    if !s.inGame then
      (initGame W H fuel g s).map fun r => ({ r.1 with timerActive := true }, r.2)
    else some (s, g)
  | Key.Other => some (s, g)

/-- The constructor `SnakeGame::SnakeGame`: the member initialisers, `initGame()`
and `timer.start(DELAY)`. -/
def construct (W H : Int) (fuel : Nat) (g : Rng) : Option (SnakeGame × Rng) :=
  (initGame W H fuel g
    { snake := [], food := (0, 0), dir := Direction.RIGHT, inGame := true,
      timerActive := false }).map fun r => ({ r.1 with timerActive := true }, r.2)

/-- One event delivered to the widget. -/
def handle (W H : Int) (fuel : Nat) (e : Event) (r : SnakeGame × Rng) :
    Option (SnakeGame × Rng) :=
  match e with
  | Event.tick => updateGame W H fuel r.2 r.1
  | Event.key k => keyPressEvent W H fuel r.2 k r.1

/-- A sequence of events delivered one after the other. -/
def runFrom (W H : Int) (fuel : Nat) : List Event → SnakeGame × Rng → Option (SnakeGame × Rng)
  | [], r => some r
  | e :: es, r => (handle W H fuel e r).bind (runFrom W H fuel es)

/-- The widget is constructed and then receives the events `es`. -/
def run (W H : Int) (fuel : Nat) (g : Rng) (es : List Event) : Option (SnakeGame × Rng) :=
  (construct W H fuel g).bind (runFrom W H fuel es)

/-- The states the widget can be in after construction and finitely many events. -/
def Reachable (W H : Int) (s : SnakeGame) : Prop :=
  ∃ (fuel : Nat) (g : Rng) (es : List Event) (g2 : Rng), run W H fuel g es = some (s, g2)

/-! ### Vocabulary of the specification -/

/-- The exact opposite of a direction. -/
def opposite : Direction → Direction
  | Direction.UP => Direction.DOWN
  | Direction.DOWN => Direction.UP
  | Direction.LEFT => Direction.RIGHT
  | Direction.RIGHT => Direction.LEFT

/-- The arrow key that requests a direction. -/
def arrowKey : Direction → Key
  | Direction.UP => Key.Key_Up
  | Direction.DOWN => Key.Key_Down
  | Direction.LEFT => Key.Key_Left
  | Direction.RIGHT => Key.Key_Right

/-- The `k`-th cell that `spawnFood` draws from the stream `g`: the draws
`2 * k` and `2 * k + 1` give its `x` and its `y`. -/
def drawCell (W H : Int) (g : Rng) (k : Nat) : QPoint :=
  ((g (2 * k) : Int) % W, (g (2 * k + 1) : Int) % H)

/-- Among the first `fuel + 1` cells drawn from `g` one is off the list `cells`. -/
def FreeWithin (W H : Int) (fuel : Nat) (g : Rng) (cells : List QPoint) : Prop :=
  ∃ k, k ≤ fuel ∧ drawCell W H g k ∉ cells

/-- The position lies on the board `[0, W) x [0, H)`. -/
def onBoard (W H : Int) (p : QPoint) : Prop :=
  0 ≤ p.1 ∧ p.1 < W ∧ 0 ≤ p.2 ∧ p.2 < H

/-- The stream that returns the same value forever. -/
def constRng (v : Nat) : Rng := fun _ => v

/-- The state the 20x20 game starts from when the food is drawn at `f`. -/
def startState (f : QPoint) : SnakeGame :=
  { snake := [(10, 10), (9, 10), (8, 10)], food := f, dir := Direction.RIGHT,
    inGame := true, timerActive := true }

/-- A state in game whose snake is coiled so that the cell above the head,
`(5, 4)`, is a cell of its body. -/
def coiledState : SnakeGame :=
  { snake := [(5, 5), (4, 5), (4, 4), (5, 4), (6, 4)], food := (0, 0), dir := Direction.UP,
    inGame := true, timerActive := true }

/-- A stream whose first drawn cell is `(10, 10)` and whose later cells are
all `(3, 3)`. -/
def retryRng : Rng := fun i => if i < 2 then 10 else 3

/-- A state in which the game is over: the head has run into the body. -/
def gameOverState : SnakeGame :=
  { snake := [(5, 4), (5, 5), (4, 5), (4, 4), (5, 4)], food := (0, 0), dir := Direction.UP,
    inGame := false, timerActive := false }

/-- The state after the start snake has run Right into the wall, with the
food at `(3, 3)`: the head is at `(20, 10)`, off the board. -/
def wallHitState : SnakeGame :=
  { snake := [(20, 10), (19, 10), (18, 10)], food := (3, 3), dir := Direction.RIGHT,
    inGame := false, timerActive := false }

/-- All the cells of the board `[0, W) x [0, H)`, column by column. -/
def boardCells (W H : Int) : List QPoint :=
  (List.range W.toNat).flatMap fun (x : Nat) =>
    (List.range H.toNat).map fun (y : Nat) => ((x : Int), (y : Int))

/-- A state in game whose snake lies on every cell of the 20x20 board. -/
def fullBoardState : SnakeGame :=
  { snake := boardCells BOARD_WIDTH BOARD_HEIGHT, food := (0, 0), dir := Direction.RIGHT,
    inGame := true, timerActive := true }

/-- A state in game whose head is at `(19, 10)`, next to the right wall, and
heads Right. -/
def wallState : SnakeGame :=
  { snake := [(19, 10), (18, 10), (17, 10)], food := (3, 3), dir := Direction.RIGHT,
    inGame := true, timerActive := true }

/-- A state in game whose snake is a ring of four cells: the cell right of the
head is the last cell of the snake. -/
def ringState : SnakeGame :=
  { snake := [(5, 5), (5, 6), (6, 6), (6, 5)], food := (0, 0), dir := Direction.RIGHT,
    inGame := true, timerActive := true }

/-- A stream whose first drawn cell is `(11, 10)` and whose later cells are
all `(3, 3)`. -/
def eatRng : Rng := fun i => if i = 0 then 11 else if i = 1 then 10 else 3

/-- A stream whose first drawn cell on the board `W x H` is the cell right of
the head of the start snake. -/
def aheadRng (W H : Int) : Rng :=
  fun i => if i = 0 then (Int.tdiv W 2 + 1).toNat else (Int.tdiv H 2).toNat

/-! ### Lemmas on `spawnFood` -/

theorem contains_eq_decide (l : List QPoint) (a : QPoint) :
    l.contains a = decide (a ∈ l) := by
  simp [List.contains]

theorem drawCell_shift (W H : Int) (g : Rng) (k : Nat) :
    drawCell W H (bounded (bounded g W).2 H).2 k = drawCell W H g (k + 1) := by
  simp only [drawCell, bounded]
  have h1 : 2 * k + 1 + 1 = 2 * (k + 1) := by ring
  rw [h1]

theorem drawCell_zero (W H : Int) (g : Rng) :
    ((bounded g W).1, (bounded (bounded g W).2 H).1) = drawCell W H g 0 := by
  simp [drawCell, bounded]

theorem drawCell_onBoard (W H : Int) (hW : 0 < W) (hH : 0 < H) (g : Rng) (k : Nat) :
    onBoard W H (drawCell W H g k) := by
  refine ⟨Int.emod_nonneg _ (ne_of_gt hW), Int.emod_lt_of_pos _ hW,
    Int.emod_nonneg _ (ne_of_gt hH), Int.emod_lt_of_pos _ hH⟩

/-- What the loop of `spawnFood` returns: only the food has changed, it is
off the snake, and it is the food the loop started with or a drawn cell. -/
theorem spawnFoodLoop_some (W H : Int) (fuel : Nat) :
    ∀ (g : Rng) (s s2 : SnakeGame) (g2 : Rng),
      spawnFoodLoop W H fuel g s = some (s2, g2) →
      s2 = { s with food := s2.food } ∧ s2.food ∉ s.snake ∧
        (s2.food = s.food ∨ ∃ k, s2.food = drawCell W H g k) := by
  induction fuel with
  | zero =>
    intro g s s2 g2 h
    unfold spawnFoodLoop at h
    by_cases hm : s.food ∈ s.snake
    · simp [hm] at h
    · simp only [contains_eq_decide, hm, decide_False, Bool.false_eq_true, ↓reduceIte,
        Option.some.injEq, Prod.mk.injEq] at h
      obtain ⟨rfl, _⟩ := h
      exact ⟨rfl, hm, Or.inl rfl⟩
  | succ n ih =>
    intro g s s2 g2 h
    unfold spawnFoodLoop at h
    by_cases hm : s.food ∈ s.snake
    · simp only [contains_eq_decide, hm, decide_True, ↓reduceIte] at h
      obtain ⟨h1, h2, h3⟩ := ih _ _ _ _ h
      refine ⟨?_, h2, Or.inr ?_⟩
      · rw [h1]
      · rcases h3 with h3 | ⟨k, hk⟩
        · exact ⟨0, by rw [h3, ← drawCell_zero]⟩
        · exact ⟨k + 1, by rw [hk, drawCell_shift]⟩
    · simp only [contains_eq_decide, hm, decide_False, Bool.false_eq_true, ↓reduceIte,
        Option.some.injEq, Prod.mk.injEq] at h
      obtain ⟨rfl, _⟩ := h
      exact ⟨rfl, hm, Or.inl rfl⟩

/-- The loop of `spawnFood` returns exactly when the food it starts with is
off the snake or one of the next `fuel` drawn cells is. -/
theorem spawnFoodLoop_isSome (W H : Int) (fuel : Nat) :
    ∀ (g : Rng) (s : SnakeGame),
      (spawnFoodLoop W H fuel g s).isSome = true ↔
        (s.food ∉ s.snake ∨ ∃ k, k < fuel ∧ drawCell W H g k ∉ s.snake) := by
  induction fuel with
  | zero =>
    intro g s
    unfold spawnFoodLoop
    by_cases hm : s.food ∈ s.snake
    · simp [hm]
    · simp [hm]
  | succ n ih =>
    intro g s
    unfold spawnFoodLoop
    by_cases hm : s.food ∈ s.snake
    · simp only [contains_eq_decide, hm, decide_True, ↓reduceIte]
      rw [ih]
      simp only [drawCell_zero, drawCell_shift]
      constructor
      · rintro (h | ⟨k, hk, h⟩)
        · exact Or.inr ⟨0, Nat.succ_pos n, h⟩
        · exact Or.inr ⟨k + 1, Nat.succ_lt_succ hk, h⟩
      · rintro (h | ⟨k, hk, h⟩)
        · exact absurd trivial h
        · cases k with
          | zero => exact Or.inl h
          | succ k => exact Or.inr ⟨k, Nat.lt_of_succ_lt_succ hk, h⟩
    · simp [hm]

/-- More fuel does not change what the loop of `spawnFood` returns. -/
theorem spawnFoodLoop_fuel_succ (W H : Int) (fuel : Nat) :
    ∀ (g : Rng) (s : SnakeGame) (r : SnakeGame × Rng),
      spawnFoodLoop W H fuel g s = some r → spawnFoodLoop W H (fuel + 1) g s = some r := by
  induction fuel with
  | zero =>
    intro g s r h
    unfold spawnFoodLoop at h ⊢
    by_cases hm : s.food ∈ s.snake
    · simp [hm] at h
    · simpa [hm] using h
  | succ n ih =>
    intro g s r h
    unfold spawnFoodLoop at h
    by_cases hm : s.food ∈ s.snake
    · simp only [contains_eq_decide, hm, decide_True, ↓reduceIte] at h
      have h2 := ih _ _ r h
      conv_lhs => unfold spawnFoodLoop
      simp only [contains_eq_decide, hm, decide_True, ↓reduceIte]
      exact h2
    · conv_lhs => unfold spawnFoodLoop
      simpa [hm] using h

/-- The function `spawnFood` returns exactly when one of the first `fuel + 1`
drawn cells is off the snake. -/
theorem spawnFood_isSome (W H : Int) (fuel : Nat) (g : Rng) (s : SnakeGame) :
    (spawnFood W H fuel g s).isSome = true ↔ FreeWithin W H fuel g s.snake := by
  unfold spawnFood FreeWithin
  rw [spawnFoodLoop_isSome]
  simp only [drawCell_zero, drawCell_shift]
  constructor
  · rintro (h | ⟨k, hk, h⟩)
    · exact ⟨0, Nat.zero_le _, h⟩
    · exact ⟨k + 1, hk, h⟩
  · rintro ⟨k, hk, h⟩
    cases k with
    | zero => exact Or.inl h
    | succ k => exact Or.inr ⟨k, hk, h⟩

/-- What `spawnFood` returns: only the food has changed, and it is a drawn
cell that is off the snake. -/
theorem spawnFood_some (W H : Int) (fuel : Nat) (g : Rng) (s s2 : SnakeGame) (g2 : Rng)
    (h : spawnFood W H fuel g s = some (s2, g2)) :
    s2 = { s with food := s2.food } ∧ s2.food ∉ s.snake ∧
      ∃ k, s2.food = drawCell W H g k := by
  unfold spawnFood at h
  obtain ⟨h1, h2, h3⟩ := spawnFoodLoop_some W H fuel _ _ _ _ h
  refine ⟨?_, h2, ?_⟩
  · rw [h1]
  · rcases h3 with h3 | ⟨k, hk⟩
    · exact ⟨0, by rw [h3, ← drawCell_zero]⟩
    · exact ⟨k + 1, by rw [hk, drawCell_shift]⟩

/-! ### Lemmas on one tick -/

theorem count_eq_one_of_nodup (l : List QPoint) (a : QPoint) (hn : l.Nodup) (hm : a ∈ l) :
    l.count a = 1 := by
  induction l with
  | nil => simp at hm
  | cons b l ih =>
    obtain ⟨hb, hl⟩ := List.nodup_cons.mp hn
    by_cases hab : b = a
    · subst hab
      rw [List.count_cons_self, List.count_eq_zero.mpr hb]
    · rcases List.mem_cons.mp hm with h | h
      · exact absurd h.symm hab
      · rw [List.count_cons_of_ne (fun h2 => hab h2.symm), ih hl h]

theorem hitsWall_eq_false (W H : Int) (p : QPoint) :
    hitsWall W H p = false ↔ onBoard W H p := by
  simp only [hitsWall, onBoard, Bool.or_eq_false_iff, decide_eq_false_iff_not, not_lt, ge_iff_le,
    not_le]
  tauto

theorem any_beq_eq_true (l : List QPoint) (a : QPoint) :
    (l.any fun c => c == a) = true ↔ a ∈ l := by
  simp only [List.any_eq_true, beq_iff_eq]
  constructor
  · rintro ⟨x, hx, rfl⟩
    exact hx
  · intro h
    exact ⟨a, h, rfl⟩

/-- What `checkCollision` does to a state whose snake is `head :: rest`. -/
theorem checkCollision_cons (W H : Int) (s : SnakeGame) (head : QPoint) (rest : List QPoint)
    (hS : s.snake = head :: rest) :
    ∃ s2, checkCollision W H s = some s2 ∧ s2.snake = s.snake ∧ s2.food = s.food ∧
      s2.dir = s.dir ∧
      (s2.inGame = true ↔ s.inGame = true ∧ onBoard W H head ∧ head ∉ rest) ∧
      s2.timerActive = (s.timerActive && s2.inGame) := by
  unfold checkCollision
  rw [hS]
  simp only [Option.some.injEq, exists_eq_left']
  rw [← hitsWall_eq_false, ← any_beq_eq_true]
  cases hw : hitsWall W H head <;> cases ha : (rest.any fun c => c == head) <;>
    cases hi : s.inGame <;> cases ht : s.timerActive <;> simp [hS, hi, ht]

/-- A tick in a state that is in game and whose snake is `first :: rest`,
unfolded into `moveSnake` and `checkCollision`. -/
theorem updateGame_alive (W H : Int) (fuel : Nat) (g : Rng) (s : SnakeGame) (first : QPoint)
    (rest : List QPoint) (hA : s.inGame = true) (hS : s.snake = first :: rest) :
    updateGame W H fuel g s =
      if newHead s.dir first = s.food then
        (spawnFood W H fuel g { s with snake := newHead s.dir first :: s.snake }).bind
          fun r => (checkCollision W H r.1).map fun s2 => (s2, r.2)
      else
        (checkCollision W H { s with snake := newHead s.dir first :: s.snake.dropLast }).map
          fun s2 => (s2, g) := by
  unfold updateGame moveSnake
  rw [hS]
  by_cases he : newHead s.dir first = s.food
  · simp [hA, he, hS]
  · simp [hA, he, hS]

/-- A tick in a state that is in game returns exactly when, in case the
snake eats, `spawnFood` finds a free cell within its fuel. -/
theorem updateGame_alive_isSome (W H : Int) (fuel : Nat) (g : Rng) (s : SnakeGame)
    (first : QPoint) (rest : List QPoint) (hA : s.inGame = true) (hS : s.snake = first :: rest) :
    (updateGame W H fuel g s).isSome = true ↔
      (newHead s.dir first = s.food →
        FreeWithin W H fuel g (newHead s.dir first :: s.snake)) := by
  rw [updateGame_alive W H fuel g s first rest hA hS]
  by_cases he : newHead s.dir first = s.food
  · rw [if_pos he]
    have key := spawnFood_isSome W H fuel g { s with snake := newHead s.dir first :: s.snake }
    cases hsp : spawnFood W H fuel g { s with snake := newHead s.dir first :: s.snake } with
    | none =>
      rw [hsp] at key
      constructor
      · intro h
        simp at h
      · intro h
        exact key.mpr (h he)
    | some r =>
      rw [hsp] at key
      obtain ⟨h1, -, -⟩ := spawnFood_some W H fuel g _ r.1 r.2 hsp
      have hr : r.1.snake = newHead s.dir first :: s.snake := by rw [h1]
      obtain ⟨s2, h2, -⟩ := checkCollision_cons W H r.1 _ _ hr
      constructor
      · intro _ _
        exact key.mp rfl
      · intro _
        simp [h2]
  · rw [if_neg he]
    obtain ⟨s2, h2, -⟩ := checkCollision_cons W H
      { s with snake := newHead s.dir first :: s.snake.dropLast } _ _ rfl
    constructor
    · intro _ h
      exact absurd h he
    · intro _
      simp [h2]

/-- The state a tick returns from a state that is in game. -/
theorem updateGame_alive_some (W H : Int) (fuel : Nat) (g : Rng) (s : SnakeGame)
    (first : QPoint) (rest : List QPoint) (hA : s.inGame = true) (hS : s.snake = first :: rest)
    (s2 : SnakeGame) (g2 : Rng) (h : updateGame W H fuel g s = some (s2, g2)) :
    s2.snake = (if newHead s.dir first = s.food then newHead s.dir first :: s.snake
      else newHead s.dir first :: s.snake.dropLast) ∧
    s2.dir = s.dir ∧
    (s2.inGame = true ↔ onBoard W H (newHead s.dir first) ∧ newHead s.dir first ∉ s2.snake.tail) ∧
    (if newHead s.dir first = s.food then
      s2.food ∉ s2.snake ∧ ∃ k, s2.food = drawCell W H g k
     else s2.food = s.food ∧ g2 = g) ∧
    s2.timerActive = (s.timerActive && s2.inGame) := by
  rw [updateGame_alive W H fuel g s first rest hA hS] at h
  by_cases he : newHead s.dir first = s.food
  · rw [if_pos he] at h
    simp only [if_pos he]
    cases hsp : spawnFood W H fuel g { s with snake := newHead s.dir first :: s.snake } with
    | none =>
      rw [hsp] at h
      simp at h
    | some r =>
      rw [hsp] at h
      obtain ⟨h1, h3, h4⟩ := spawnFood_some W H fuel g _ r.1 r.2 hsp
      have hr : r.1.snake = newHead s.dir first :: s.snake := by rw [h1]
      obtain ⟨s3, h2, c1, c2, c3, c4, c5⟩ := checkCollision_cons W H r.1 _ _ hr
      simp only [Option.some_bind, h2, Option.map_some', Option.some.injEq,
        Prod.mk.injEq] at h
      obtain ⟨h5, -⟩ := h
      subst h5
      have hd : r.1.dir = s.dir := by rw [h1]
      have hi : r.1.inGame = true := by rw [h1]; exact hA
      have ht : r.1.timerActive = s.timerActive := by rw [h1]
      have hsn : s3.snake = newHead s.dir first :: s.snake := by rw [c1, hr]
      refine ⟨hsn, by rw [c3, hd], ?_, ⟨?_, ?_⟩, by rw [c5, ht]⟩
      · rw [c4, hsn]
        simp [hi]
      · rw [c2, hsn]
        exact h3
      · rw [c2]
        exact h4
  · rw [if_neg he] at h
    simp only [if_neg he]
    obtain ⟨s3, h2, c1, c2, c3, c4, c5⟩ := checkCollision_cons W H
      { s with snake := newHead s.dir first :: s.snake.dropLast } _ _ rfl
    simp only [h2, Option.map_some', Option.some.injEq, Prod.mk.injEq] at h
    obtain ⟨h5, h6⟩ := h
    subst h5
    refine ⟨c1, c3, ?_, ⟨c2, h6.symm⟩, c5⟩
    rw [c4, c1]
    simp [hA]

/-- A tick in a state that is not in game changes nothing. -/
theorem updateGame_dead (W H : Int) (fuel : Nat) (g : Rng) (s : SnakeGame)
    (hD : s.inGame = false) : updateGame W H fuel g s = some (s, g) := by
  simp [updateGame, hD]

/-- A tick never returns from a state that is in game with an empty snake. -/
theorem updateGame_nil (W H : Int) (fuel : Nat) (g : Rng) (s : SnakeGame)
    (hA : s.inGame = true) (hS : s.snake = []) : updateGame W H fuel g s = none := by
  simp [updateGame, moveSnake, hA, hS]

/-! ### Lemmas on `initGame`, the constructor and the key presses -/

/-- The three cells `initGame` puts the snake on. -/
theorem initGame_some (W H : Int) (fuel : Nat) (g : Rng) (s s2 : SnakeGame) (g2 : Rng)
    (h : initGame W H fuel g s = some (s2, g2)) :
    s2.snake = [(Int.tdiv W 2, Int.tdiv H 2), (Int.tdiv W 2 - 1, Int.tdiv H 2),
      (Int.tdiv W 2 - 2, Int.tdiv H 2)] ∧
    s2.dir = Direction.RIGHT ∧ s2.inGame = true ∧ s2.timerActive = s.timerActive ∧
    s2.food ∉ s2.snake ∧ ∃ k, s2.food = drawCell W H g k := by
  unfold initGame at h
  obtain ⟨h1, h2, h3⟩ := spawnFood_some W H fuel g _ s2 g2 h
  have hsn : s2.snake = [(Int.tdiv W 2, Int.tdiv H 2), (Int.tdiv W 2 - 1, Int.tdiv H 2),
      (Int.tdiv W 2 - 2, Int.tdiv H 2)] := by rw [h1]
  refine ⟨hsn, by rw [h1], by rw [h1], by rw [h1], ?_, h3⟩
  rw [hsn]
  exact h2

theorem initGame_isSome (W H : Int) (fuel : Nat) (g : Rng) (s : SnakeGame) :
    (initGame W H fuel g s).isSome = true ↔
      FreeWithin W H fuel g [(Int.tdiv W 2, Int.tdiv H 2), (Int.tdiv W 2 - 1, Int.tdiv H 2),
        (Int.tdiv W 2 - 2, Int.tdiv H 2)] := by
  unfold initGame
  rw [spawnFood_isSome]

theorem initial_snake_nodup (a b : Int) : [(a, b), (a - 1, b), (a - 2, b)].Nodup := by
  have h1 : a ≠ a - 1 := by omega
  have h2 : a ≠ a - 2 := by omega
  have h3 : a - 1 ≠ a - 2 := by omega
  simp [h1, h2, h3]

/-- An arrow key changes nothing but the direction; any other key but Space
changes nothing. -/
theorem keyPressEvent_not_space (W H : Int) (fuel : Nat) (g : Rng) (k : Key) (s : SnakeGame)
    (hk : k ≠ Key.Key_Space) :
    ∃ d, keyPressEvent W H fuel g k s = some ({ s with dir := d }, g) := by
  cases k with
  | Key_Space => exact absurd rfl hk
  | Other => exact ⟨s.dir, rfl⟩
  | Key_Left =>
    by_cases h : s.dir = Direction.RIGHT
    · refine ⟨s.dir, ?_⟩
      show some (if s.dir ≠ Direction.RIGHT then _ else s, g) = _
      rw [if_neg (not_not.mpr h)]
    · exact ⟨Direction.LEFT, by simp [keyPressEvent, h]⟩
  | Key_Right =>
    by_cases h : s.dir = Direction.LEFT
    · refine ⟨s.dir, ?_⟩
      show some (if s.dir ≠ Direction.LEFT then _ else s, g) = _
      rw [if_neg (not_not.mpr h)]
    · exact ⟨Direction.RIGHT, by simp [keyPressEvent, h]⟩
  | Key_Up =>
    by_cases h : s.dir = Direction.DOWN
    · refine ⟨s.dir, ?_⟩
      show some (if s.dir ≠ Direction.DOWN then _ else s, g) = _
      rw [if_neg (not_not.mpr h)]
    · exact ⟨Direction.UP, by simp [keyPressEvent, h]⟩
  | Key_Down =>
    by_cases h : s.dir = Direction.UP
    · refine ⟨s.dir, ?_⟩
      show some (if s.dir ≠ Direction.UP then _ else s, g) = _
      rw [if_neg (not_not.mpr h)]
    · exact ⟨Direction.DOWN, by simp [keyPressEvent, h]⟩

/-- The Space key: nothing in game, and `initGame` with the timer started
out of game. -/
theorem keyPressEvent_space (W H : Int) (fuel : Nat) (g : Rng) (s : SnakeGame) :
    keyPressEvent W H fuel g Key.Key_Space s =
      if s.inGame = true then some (s, g)
      else (initGame W H fuel g s).map fun r => ({ r.1 with timerActive := true }, r.2) := by
  cases hi : s.inGame <;> simp [keyPressEvent, hi]

/-! ### Induction over the reachable states -/

theorem runFrom_preserves (W H : Int) (fuel : Nat) (P : SnakeGame → Prop)
    (hstep : ∀ (e : Event) (s : SnakeGame) (g : Rng) (s2 : SnakeGame) (g2 : Rng),
      P s → handle W H fuel e (s, g) = some (s2, g2) → P s2) :
    ∀ (es : List Event) (r r2 : SnakeGame × Rng),
      P r.1 → runFrom W H fuel es r = some r2 → P r2.1 := by
  intro es
  induction es with
  | nil =>
    intro r r2 hP h
    simp only [runFrom, Option.some.injEq] at h
    rw [← h]
    exact hP
  | cons e es ih =>
    intro r r2 hP h
    simp only [runFrom] at h
    cases hh : handle W H fuel e r with
    | none =>
      rw [hh] at h
      simp at h
    | some r1 =>
      rw [hh] at h
      simp only [Option.some_bind] at h
      exact ih r1 r2 (hstep e r.1 r.2 r1.1 r1.2 hP hh) h

/-- A property that holds after construction and is kept by every event holds
in every reachable state. -/
theorem reachable_induction (W H : Int) (P : SnakeGame → Prop)
    (hinit : ∀ (fuel : Nat) (g : Rng) (s : SnakeGame) (g2 : Rng),
      construct W H fuel g = some (s, g2) → P s)
    (hstep : ∀ (fuel : Nat) (e : Event) (s : SnakeGame) (g : Rng) (s2 : SnakeGame) (g2 : Rng),
      P s → handle W H fuel e (s, g) = some (s2, g2) → P s2)
    (s : SnakeGame) (h : Reachable W H s) : P s := by
  obtain ⟨fuel, g, es, g2, hr⟩ := h
  unfold run at hr
  cases hc : construct W H fuel g with
  | none =>
    rw [hc] at hr
    simp at hr
  | some r =>
    rw [hc] at hr
    simp only [Option.some_bind] at hr
    exact runFrom_preserves W H fuel P (hstep fuel) es r (s, g2) (hinit fuel g r.1 r.2 hc) hr

/-- What the constructor returns. -/
theorem construct_some (W H : Int) (fuel : Nat) (g : Rng) (s : SnakeGame) (g2 : Rng)
    (h : construct W H fuel g = some (s, g2)) :
    s.snake = [(Int.tdiv W 2, Int.tdiv H 2), (Int.tdiv W 2 - 1, Int.tdiv H 2),
      (Int.tdiv W 2 - 2, Int.tdiv H 2)] ∧
    s.dir = Direction.RIGHT ∧ s.inGame = true ∧ s.timerActive = true ∧
    s.food ∉ s.snake ∧ ∃ k, s.food = drawCell W H g k := by
  unfold construct at h
  cases hi : initGame W H fuel g
      { snake := [], food := (0, 0), dir := Direction.RIGHT, inGame := true,
        timerActive := false } with
  | none =>
    rw [hi] at h
    simp at h
  | some r =>
    rw [hi] at h
    simp only [Option.map_some', Option.some.injEq, Prod.mk.injEq] at h
    obtain ⟨h1, -⟩ := h
    obtain ⟨c1, c2, c3, -, c5, c6⟩ := initGame_some W H fuel g _ r.1 r.2 hi
    subst h1
    exact ⟨c1, c2, c3, rfl, c5, c6⟩

/-- The three ways an event acts on the state: it changes at most the
direction, or it restarts a game that is over, or it is a tick in game. -/
theorem handle_cases (W H : Int) (fuel : Nat) (e : Event) (s : SnakeGame) (g : Rng)
    (s2 : SnakeGame) (g2 : Rng) (h : handle W H fuel e (s, g) = some (s2, g2)) :
    (∃ d, s2 = { s with dir := d }) ∨
    (s.inGame = false ∧ ∃ r, initGame W H fuel g s = some (r, g2) ∧
      s2 = { r with timerActive := true }) ∨
    (s.inGame = true ∧ (∃ first rest, s.snake = first :: rest) ∧
      updateGame W H fuel g s = some (s2, g2)) := by
  cases e with
  | tick =>
    simp only [handle] at h
    rcases Bool.eq_false_or_eq_true s.inGame with hi | hi
    · refine Or.inr (Or.inr ⟨hi, ?_, h⟩)
      cases hs : s.snake with
      | nil =>
        rw [updateGame_nil W H fuel g s hi hs] at h
        simp at h
      | cons first rest => exact ⟨first, rest, rfl⟩
    · rw [updateGame_dead W H fuel g s hi] at h
      simp only [Option.some.injEq, Prod.mk.injEq] at h
      exact Or.inl ⟨s.dir, h.1.symm⟩
  | key k =>
    simp only [handle] at h
    by_cases hk : k = Key.Key_Space
    · subst hk
      rw [keyPressEvent_space] at h
      rcases Bool.eq_false_or_eq_true s.inGame with hi | hi
      · simp only [hi, ↓reduceIte, Option.some.injEq, Prod.mk.injEq] at h
        exact Or.inl ⟨s.dir, h.1.symm⟩
      · simp only [hi, Bool.false_eq_true, ↓reduceIte] at h
        cases hr : initGame W H fuel g s with
        | none =>
          rw [hr] at h
          simp at h
        | some r =>
          rw [hr] at h
          simp only [Option.map_some', Option.some.injEq, Prod.mk.injEq] at h
          refine Or.inr (Or.inl ⟨hi, r.1, ?_, h.1.symm⟩)
          rw [← h.2]
    · obtain ⟨d, hd⟩ := keyPressEvent_not_space W H fuel g k s hk
      rw [hd] at h
      simp only [Option.some.injEq, Prod.mk.injEq] at h
      exact Or.inl ⟨d, h.1.symm⟩

/-- Every event keeps the food off the snake. -/
theorem handle_food_off_snake (W H : Int) (fuel : Nat) (e : Event) (s : SnakeGame) (g : Rng)
    (s2 : SnakeGame) (g2 : Rng) (hP : s.food ∉ s.snake)
    (h : handle W H fuel e (s, g) = some (s2, g2)) : s2.food ∉ s2.snake := by
  rcases handle_cases W H fuel e s g s2 g2 h with ⟨d, rfl⟩ | ⟨-, r, hr, rfl⟩ |
    ⟨hA, ⟨first, rest, hS⟩, hu⟩
  · exact hP
  · exact (initGame_some W H fuel g s r g2 hr).2.2.2.2.1
  · obtain ⟨c1, -, -, c4, -⟩ := updateGame_alive_some W H fuel g s first rest hA hS s2 g2 hu
    by_cases he : newHead s.dir first = s.food
    · rw [if_pos he] at c4
      exact c4.1
    · rw [if_neg he] at c1 c4
      rw [c1, c4.1]
      intro hm
      rcases List.mem_cons.mp hm with hm | hm
      · exact he hm.symm
      · exact hP (List.dropLast_subset _ hm)

/-- Every event keeps the snake of a game that is on free of duplicates. -/
theorem handle_nodup (W H : Int) (fuel : Nat) (e : Event) (s : SnakeGame) (g : Rng)
    (s2 : SnakeGame) (g2 : Rng) (hP : s.inGame = true → s.snake.Nodup)
    (h : handle W H fuel e (s, g) = some (s2, g2)) : s2.inGame = true → s2.snake.Nodup := by
  rcases handle_cases W H fuel e s g s2 g2 h with ⟨d, rfl⟩ | ⟨-, r, hr, rfl⟩ |
    ⟨hA, ⟨first, rest, hS⟩, hu⟩
  · exact hP
  · intro _
    show r.snake.Nodup
    rw [(initGame_some W H fuel g s r g2 hr).1]
    exact initial_snake_nodup _ _
  · intro hA2
    obtain ⟨c1, -, c3, -, -⟩ := updateGame_alive_some W H fuel g s first rest hA hS s2 g2 hu
    have hn := (c3.mp hA2).2
    rw [c1] at hn ⊢
    by_cases he : newHead s.dir first = s.food
    · rw [if_pos he] at hn ⊢
      exact List.nodup_cons.mpr ⟨hn, hP hA⟩
    · rw [if_neg he] at hn ⊢
      exact List.nodup_cons.mpr ⟨hn, (hP hA).sublist (List.dropLast_sublist _)⟩

/-! ### Lemmas on the board -/

theorem mem_boardCells (W H : Int) (p : QPoint) (h : onBoard W H p) : p ∈ boardCells W H := by
  obtain ⟨h1, h2, h3, h4⟩ := h
  have hx : p.1.toNat < W.toNat := by omega
  have hy : p.2.toNat < H.toNat := by omega
  unfold boardCells
  rw [List.mem_flatMap]
  refine ⟨p.1.toNat, List.mem_range.mpr hx, ?_⟩
  show p ∈ (List.range H.toNat).map fun y : Nat => ((p.1.toNat : Int), (y : Int))
  refine List.mem_map.mpr ⟨p.2.toNat, List.mem_range.mpr hy, ?_⟩
  show ((p.1.toNat : Int), (p.2.toNat : Int)) = p
  rw [Int.toNat_of_nonneg h1, Int.toNat_of_nonneg h3]

/-- On a board with cells, `spawnFood` never returns when the snake lies on
every cell of the board. -/
theorem spawnFood_none_of_full (W H : Int) (hW : 0 < W) (hH : 0 < H) (fuel : Nat) (g : Rng)
    (s : SnakeGame) (hfull : ∀ p, onBoard W H p → p ∈ s.snake) :
    spawnFood W H fuel g s = none := by
  cases hsp : spawnFood W H fuel g s with
  | none => rfl
  | some r =>
    have hs : (spawnFood W H fuel g s).isSome = true := by rw [hsp]; rfl
    obtain ⟨k, -, hk⟩ := (spawnFood_isSome W H fuel g s).mp hs
    exact absurd (hfull _ (drawCell_onBoard W H hW hH g k)) hk

/-- The three cells `initGame` puts the snake on are on a board that is at
least 4 wide and 1 high. -/
theorem initial_cells_onBoard (W H : Int) (hW : 4 ≤ W) (hH : 1 ≤ H) :
    ∀ c ∈ [(Int.tdiv W 2, Int.tdiv H 2), (Int.tdiv W 2 - 1, Int.tdiv H 2),
      (Int.tdiv W 2 - 2, Int.tdiv H 2)], onBoard W H c := by
  have h1 : Int.tdiv W 2 = W / 2 := Int.tdiv_eq_ediv (by omega) (by omega)
  have h2 : Int.tdiv H 2 = H / 2 := Int.tdiv_eq_ediv (by omega) (by omega)
  rw [h1, h2]
  intro c hc
  simp only [List.mem_cons, List.mem_singleton, List.not_mem_nil, or_false] at hc
  rcases hc with rfl | rfl | rfl <;> refine ⟨?_, ?_, ?_, ?_⟩ <;> simp only <;> omega

/-- Every event keeps the snake at least three cells long. -/
theorem handle_length (W H : Int) (fuel : Nat) (e : Event) (s : SnakeGame) (g : Rng)
    (s2 : SnakeGame) (g2 : Rng) (hP : 3 ≤ s.snake.length)
    (h : handle W H fuel e (s, g) = some (s2, g2)) : 3 ≤ s2.snake.length := by
  rcases handle_cases W H fuel e s g s2 g2 h with ⟨d, rfl⟩ | ⟨-, r, hr, rfl⟩ |
    ⟨hA, ⟨first, rest, hS⟩, hu⟩
  · exact hP
  · show 3 ≤ r.snake.length
    rw [(initGame_some W H fuel g s r g2 hr).1]
    simp
  · obtain ⟨c1, -⟩ := updateGame_alive_some W H fuel g s first rest hA hS s2 g2 hu
    rw [c1]
    by_cases he : newHead s.dir first = s.food
    · rw [if_pos he, List.length_cons]
      omega
    · rw [if_neg he, List.length_cons, List.length_dropLast, hS, List.length_cons]
      rw [hS, List.length_cons] at hP
      omega

/-- Every event keeps the food on the board, the cells behind the head on
the board, and the whole snake on the board while the game is on. -/
theorem handle_onBoard (W H : Int) (hW : 4 ≤ W) (hH : 1 ≤ H) (fuel : Nat) (e : Event)
    (s : SnakeGame) (g : Rng) (s2 : SnakeGame) (g2 : Rng)
    (hP : onBoard W H s.food ∧ (∀ c ∈ s.snake.tail, onBoard W H c) ∧
      (s.inGame = true → ∀ c ∈ s.snake, onBoard W H c))
    (h : handle W H fuel e (s, g) = some (s2, g2)) :
    onBoard W H s2.food ∧ (∀ c ∈ s2.snake.tail, onBoard W H c) ∧
      (s2.inGame = true → ∀ c ∈ s2.snake, onBoard W H c) := by
  rcases handle_cases W H fuel e s g s2 g2 h with ⟨d, rfl⟩ | ⟨-, r, hr, rfl⟩ |
    ⟨hA, ⟨first, rest, hS⟩, hu⟩
  · exact hP
  · obtain ⟨c1, -, -, -, -, k, c6⟩ := initGame_some W H fuel g s r g2 hr
    have hall : ∀ c ∈ r.snake, onBoard W H c := by
      rw [c1]
      exact initial_cells_onBoard W H hW hH
    refine ⟨?_, fun c hc => hall c (List.mem_of_mem_tail hc), fun _ => hall⟩
    show onBoard W H r.food
    rw [c6]
    exact drawCell_onBoard W H (by omega) (by omega) g k
  · obtain ⟨hf, -, hall⟩ := hP
    obtain ⟨c1, -, c3, c4, -⟩ := updateGame_alive_some W H fuel g s first rest hA hS s2 g2 hu
    have htail : ∀ c ∈ s2.snake.tail, onBoard W H c := by
      rw [c1]
      by_cases he : newHead s.dir first = s.food
      · rw [if_pos he, List.tail_cons]
        exact hall hA
      · rw [if_neg he, List.tail_cons]
        exact fun c hc => hall hA c (List.dropLast_subset _ hc)
    have hhead : ∃ t, s2.snake = newHead s.dir first :: t := by
      by_cases he : newHead s.dir first = s.food
      · exact ⟨_, by rw [c1, if_pos he]⟩
      · exact ⟨_, by rw [c1, if_neg he]⟩
    refine ⟨?_, htail, ?_⟩
    · by_cases he : newHead s.dir first = s.food
      · rw [if_pos he] at c4
        obtain ⟨-, k, hk⟩ := c4
        rw [hk]
        exact drawCell_onBoard W H (by omega) (by omega) g k
      · rw [if_neg he] at c4
        rw [c4.1]
        exact hf
    · intro hA2 c hc
      obtain ⟨t, ht⟩ := hhead
      rw [ht] at hc htail
      rcases List.mem_cons.mp hc with rfl | hc
      · exact (c3.mp hA2).1
      · exact htail c hc

/-- What the constructor leaves is on the board. -/
theorem construct_onBoard (W H : Int) (hW : 4 ≤ W) (hH : 1 ≤ H) (fuel : Nat) (g : Rng)
    (s : SnakeGame) (g2 : Rng) (h : construct W H fuel g = some (s, g2)) :
    onBoard W H s.food ∧ (∀ c ∈ s.snake.tail, onBoard W H c) ∧
      (s.inGame = true → ∀ c ∈ s.snake, onBoard W H c) := by
  obtain ⟨c1, -, -, -, -, k, c6⟩ := construct_some W H fuel g s g2 h
  have hall : ∀ c ∈ s.snake, onBoard W H c := by
    rw [c1]
    exact initial_cells_onBoard W H hW hH
  refine ⟨?_, fun c hc => hall c (List.mem_of_mem_tail hc), fun _ => hall⟩
  rw [c6]
  exact drawCell_onBoard W H (by omega) (by omega) g k

/-- The snake `moveSnake` leaves when it returns. -/
theorem moveSnake_some (W H : Int) (fuel : Nat) (g : Rng) (s : SnakeGame) (first : QPoint)
    (rest : List QPoint) (hS : s.snake = first :: rest) (r : SnakeGame × Rng)
    (h : moveSnake W H fuel g s = some r) :
    r.1.snake = (if newHead s.dir first = s.food then newHead s.dir first :: s.snake
      else newHead s.dir first :: s.snake.dropLast) := by
  unfold moveSnake at h
  rw [hS] at h
  simp only [beq_iff_eq] at h
  by_cases he : newHead s.dir first = s.food
  · rw [if_pos he] at h
    rw [if_pos he]
    obtain ⟨h1, -, -⟩ := spawnFood_some W H fuel g _ r.1 r.2 h
    rw [h1, hS]
  · rw [if_neg he] at h
    rw [if_neg he]
    simp only [Option.some.injEq] at h
    rw [← h, hS]
    rfl

/-! ### The claims -/

/-- C1: in a state that is in game and whose snake is not empty, one tick
(`updateGame`, through `moveSnake`) returns, and it leaves the snake equal to the
new head followed by the whole snake of before the tick when the new head is the
food of before the tick, and followed by that snake without its last cell
otherwise; the new head is the old head shifted by one cell in the direction
(Left `x - 1`, Right `x + 1`, Up `y - 1`, Down `y + 1`).  When the snake eats,
the tick returns provided `spawnFood` draws a free cell within its fuel. -/
theorem tick_snake_shape (fuel : Nat) (g : Rng) (s : SnakeGame) (first : QPoint)
    (rest : List QPoint) (hA : s.inGame = true) (hS : s.snake = first :: rest)
    (hF : newHead s.dir first = s.food →
      FreeWithin BOARD_WIDTH BOARD_HEIGHT fuel g (newHead s.dir first :: s.snake)) :
    (newHead Direction.LEFT first = (first.1 - 1, first.2) ∧
      newHead Direction.RIGHT first = (first.1 + 1, first.2) ∧
      newHead Direction.UP first = (first.1, first.2 - 1) ∧
      newHead Direction.DOWN first = (first.1, first.2 + 1)) ∧
    ∃ s2 g2, updateGame BOARD_WIDTH BOARD_HEIGHT fuel g s = some (s2, g2) ∧
      s2.snake = (if newHead s.dir first = s.food then newHead s.dir first :: s.snake
        else newHead s.dir first :: s.snake.dropLast) := by
  refine ⟨⟨rfl, rfl, rfl, rfl⟩, ?_⟩
  have hsome := (updateGame_alive_isSome BOARD_WIDTH BOARD_HEIGHT fuel g s first rest hA hS).mpr hF
  obtain ⟨r, hr⟩ := Option.isSome_iff_exists.mp hsome
  exact ⟨r.1, r.2, hr,
    (updateGame_alive_some BOARD_WIDTH BOARD_HEIGHT fuel g s first rest hA hS r.1 r.2 hr).1⟩

/-- C1, the scenario of the specification: on the 20x20 board the snake
`[(10,10),(9,10),(8,10)]` heading Right, with the food at `(3,3)`, becomes
`[(11,10),(10,10),(9,10)]` and the game is still on. -/
theorem tick_snake_shape_witness :
    (∃ s2 g2, updateGame BOARD_WIDTH BOARD_HEIGHT 0 (constRng 0) (startState (3, 3))
        = some (s2, g2) ∧ s2.snake = [(11, 10), (10, 10), (9, 10)]) ∧
    (updateGame BOARD_WIDTH BOARD_HEIGHT 0 (constRng 0) (startState (3, 3))).map
        (fun r => r.1)
      = some { snake := [(11, 10), (10, 10), (9, 10)], food := (3, 3), dir := Direction.RIGHT,
               inGame := true, timerActive := true } := by
  refine ⟨?_, by decide⟩
  obtain ⟨-, s2, g2, h1, h2⟩ := tick_snake_shape 0 (constRng 0) (startState (3, 3)) (10, 10)
    [(9, 10), (8, 10)] rfl rfl (fun h => absurd h (by decide))
  exact ⟨s2, g2, h1, by rw [h2]; decide⟩

/-- C2: in a state that is in game and whose snake is not empty, one tick
returns, the new head is the first cell of the snake it leaves, and the game is
over after it if and only if the new head is outside the board
`[0, BOARD_WIDTH) x [0, BOARD_HEIGHT)` or is equal to a cell at an index `>= 1`
of the snake as it is after the move; in every other case the game stays on. -/
theorem tick_game_over_iff (fuel : Nat) (g : Rng) (s : SnakeGame) (first : QPoint)
    (rest : List QPoint) (hA : s.inGame = true) (hS : s.snake = first :: rest)
    (hF : newHead s.dir first = s.food →
      FreeWithin BOARD_WIDTH BOARD_HEIGHT fuel g (newHead s.dir first :: s.snake)) :
    ∃ s2 g2, updateGame BOARD_WIDTH BOARD_HEIGHT fuel g s = some (s2, g2) ∧
      s2.snake[0]? = some (newHead s.dir first) ∧
      (s2.inGame = false ↔
        (¬ onBoard BOARD_WIDTH BOARD_HEIGHT (newHead s.dir first) ∨
          ∃ i, 1 ≤ i ∧ s2.snake[i]? = some (newHead s.dir first))) ∧
      (s2.inGame = true ↔
        (onBoard BOARD_WIDTH BOARD_HEIGHT (newHead s.dir first) ∧
          ¬ ∃ i, 1 ≤ i ∧ s2.snake[i]? = some (newHead s.dir first))) := by
  have hsome := (updateGame_alive_isSome BOARD_WIDTH BOARD_HEIGHT fuel g s first rest hA hS).mpr hF
  obtain ⟨r, hr⟩ := Option.isSome_iff_exists.mp hsome
  obtain ⟨c1, -, c3, -, -⟩ :=
    updateGame_alive_some BOARD_WIDTH BOARD_HEIGHT fuel g s first rest hA hS r.1 r.2 hr
  have hshape : ∃ t, r.1.snake = newHead s.dir first :: t := by
    by_cases he : newHead s.dir first = s.food
    · exact ⟨_, by rw [c1, if_pos he]⟩
    · exact ⟨_, by rw [c1, if_neg he]⟩
  obtain ⟨t, ht⟩ := hshape
  have hidx : (∃ i, 1 ≤ i ∧ r.1.snake[i]? = some (newHead s.dir first)) ↔
      newHead s.dir first ∈ r.1.snake.tail := by
    rw [ht, List.tail_cons, List.mem_iff_getElem?]
    constructor
    · rintro ⟨i, hi, h⟩
      obtain ⟨j, rfl⟩ := Nat.exists_eq_add_of_le hi
      refine ⟨j, ?_⟩
      rw [Nat.add_comm] at h
      simpa using h
    · rintro ⟨j, h⟩
      exact ⟨j + 1, Nat.le_add_left 1 j, by simpa using h⟩
  have htrue : r.1.inGame = true ↔
      (onBoard BOARD_WIDTH BOARD_HEIGHT (newHead s.dir first) ∧
        ¬ ∃ i, 1 ≤ i ∧ r.1.snake[i]? = some (newHead s.dir first)) := by
    rw [hidx]
    exact c3
  refine ⟨r.1, r.2, hr, by rw [ht]; simp, ?_, htrue⟩
  rw [← Bool.not_eq_true, htrue, not_and_or, not_not]

/-- C2, the scenario: the snake `[(5,5),(4,5),(4,4),(5,4),(6,4)]` heading Up
moves its head to `(5,4)`, which is a cell of its body after the move, and the
game is over. -/
theorem tick_game_over_iff_witness :
    (∃ s2 g2, updateGame BOARD_WIDTH BOARD_HEIGHT 0 (constRng 0) coiledState = some (s2, g2) ∧
      s2.inGame = false) ∧
    (updateGame BOARD_WIDTH BOARD_HEIGHT 0 (constRng 0) coiledState).map (fun r => r.1)
      = some { snake := [(5, 4), (5, 5), (4, 5), (4, 4), (5, 4)], food := (0, 0),
               dir := Direction.UP, inGame := false, timerActive := false } := by
  refine ⟨?_, by decide⟩
  obtain ⟨s2, g2, h1, -, h3, -⟩ := tick_game_over_iff 0 (constRng 0) coiledState (5, 5)
    [(4, 5), (4, 4), (5, 4), (6, 4)] rfl rfl (fun h => absurd h (by decide))
  refine ⟨s2, g2, h1, h3.mpr (Or.inr ⟨4, by decide, ?_⟩)⟩
  have h4 : (updateGame BOARD_WIDTH BOARD_HEIGHT 0 (constRng 0) coiledState).map (fun r => r.1)
      = some { snake := [(5, 4), (5, 5), (4, 5), (4, 4), (5, 4)], food := (0, 0),
               dir := Direction.UP, inGame := false, timerActive := false } := by decide
  rw [h1] at h4
  simp only [Option.map_some', Option.some.injEq] at h4
  rw [h4]
  decide

/-- C3: in a state that is in game (with a snake that has a head to read), one
tick returns and never makes the snake shorter; the snake gets longer by exactly
one cell if and only if the new head is the food of before the tick, and on
every other tick its length is unchanged. -/
theorem tick_length (fuel : Nat) (g : Rng) (s : SnakeGame) (first : QPoint)
    (rest : List QPoint) (hA : s.inGame = true) (hS : s.snake = first :: rest)
    (hF : newHead s.dir first = s.food →
      FreeWithin BOARD_WIDTH BOARD_HEIGHT fuel g (newHead s.dir first :: s.snake)) :
    ∃ s2 g2, updateGame BOARD_WIDTH BOARD_HEIGHT fuel g s = some (s2, g2) ∧
      s.snake.length ≤ s2.snake.length ∧
      (s2.snake.length = s.snake.length + 1 ↔ newHead s.dir first = s.food) ∧
      (newHead s.dir first ≠ s.food → s2.snake.length = s.snake.length) := by
  have hsome := (updateGame_alive_isSome BOARD_WIDTH BOARD_HEIGHT fuel g s first rest hA hS).mpr hF
  obtain ⟨r, hr⟩ := Option.isSome_iff_exists.mp hsome
  obtain ⟨c1, -⟩ :=
    updateGame_alive_some BOARD_WIDTH BOARD_HEIGHT fuel g s first rest hA hS r.1 r.2 hr
  refine ⟨r.1, r.2, hr, ?_⟩
  by_cases he : newHead s.dir first = s.food
  · rw [if_pos he] at c1
    rw [c1]
    simp [he]
  · rw [if_neg he] at c1
    rw [c1, hS]
    simp [he]

/-- C3, one tick of the start snake: with the food at `(11,10)`, right in
front of the head, the snake grows from 3 to 4 cells. -/
theorem tick_length_witness :
    ∃ s2 g2, updateGame BOARD_WIDTH BOARD_HEIGHT 0 (constRng 3) (startState (11, 10))
        = some (s2, g2) ∧ s2.snake.length = 4 := by
  obtain ⟨s2, g2, h1, -, h3, -⟩ := tick_length 0 (constRng 3) (startState (11, 10)) (10, 10)
    [(9, 10), (8, 10)] rfl rfl (fun _ => ⟨0, Nat.le_refl 0, by decide⟩)
  exact ⟨s2, g2, h1, h3.mpr (by decide)⟩

/-- C4: for every direction `d` the game has and every direction `r` requested
with its arrow key, `keyPressEvent` leaves the direction `d` when `r` is the
exact opposite of `d` and makes it `r` otherwise; nothing else changes. -/
theorem arrow_key_direction (fuel : Nat) (g : Rng) (s : SnakeGame) (r : Direction) :
    keyPressEvent BOARD_WIDTH BOARD_HEIGHT fuel g (arrowKey r) s =
      some ({ s with dir := if r = opposite s.dir then s.dir else r }, g) := by
  obtain ⟨sn, f, d, i, t⟩ := s
  cases r <;> cases d <;> simp [keyPressEvent, arrowKey, opposite]

/-- C5: `spawnFood` returns exactly when one of the first `fuel + 1` cells it
draws is off the snake, and whenever it returns the food it leaves is on the
board, `0 <= x < BOARD_WIDTH` and `0 <= y < BOARD_HEIGHT`, and is no cell of the
snake; nothing but the food has changed. -/
theorem spawnFood_food (fuel : Nat) (g : Rng) (s : SnakeGame) :
    ((spawnFood BOARD_WIDTH BOARD_HEIGHT fuel g s).isSome = true ↔
      FreeWithin BOARD_WIDTH BOARD_HEIGHT fuel g s.snake) ∧
    ∀ s2 g2, spawnFood BOARD_WIDTH BOARD_HEIGHT fuel g s = some (s2, g2) →
      (0 ≤ s2.food.1 ∧ s2.food.1 < BOARD_WIDTH ∧ 0 ≤ s2.food.2 ∧ s2.food.2 < BOARD_HEIGHT) ∧
      s2.food ∉ s.snake ∧
      s2 = { s with food := s2.food } := by
  refine ⟨spawnFood_isSome BOARD_WIDTH BOARD_HEIGHT fuel g s, ?_⟩
  intro s2 g2 h
  obtain ⟨h1, h2, k, h3⟩ := spawnFood_some BOARD_WIDTH BOARD_HEIGHT fuel g s s2 g2 h
  refine ⟨?_, h2, h1⟩
  rw [h3]
  exact drawCell_onBoard BOARD_WIDTH BOARD_HEIGHT (by decide) (by decide) g k

/-- C5, a run of the loop: the first cell drawn, `(10,10)`, is on the snake,
the second one, `(3,3)`, is free and becomes the food. -/
theorem spawnFood_food_witness :
    ∃ s2 g2, spawnFood BOARD_WIDTH BOARD_HEIGHT 1 retryRng (startState (0, 0)) = some (s2, g2) ∧
      s2 = startState (3, 3) ∧ s2.food ∉ (startState (0, 0)).snake := by
  have hs := (spawnFood_food 1 retryRng (startState (0, 0))).1.mpr ⟨1, Nat.le_refl 1, by decide⟩
  obtain ⟨r, hr⟩ := Option.isSome_iff_exists.mp hs
  obtain ⟨-, h2, -⟩ := (spawnFood_food 1 retryRng (startState (0, 0))).2 r.1 r.2 hr
  refine ⟨r.1, r.2, hr, ?_, h2⟩
  have h4 : (spawnFood BOARD_WIDTH BOARD_HEIGHT 1 retryRng (startState (0, 0))).map (fun r => r.1)
      = some (startState (3, 3)) := by decide
  rw [hr] at h4
  simpa using h4

/-- C6: in a state in which the game is over a tick returns the state it was
given, with the snake, the food, the direction and the flag unchanged, and so
does any number of ticks in a row. -/
theorem tick_game_over_identity (fuel : Nat) (g : Rng) (s : SnakeGame) (n : Nat)
    (hD : s.inGame = false) :
    updateGame BOARD_WIDTH BOARD_HEIGHT fuel g s = some (s, g) ∧
    runFrom BOARD_WIDTH BOARD_HEIGHT fuel (List.replicate n Event.tick) (s, g) = some (s, g) := by
  refine ⟨updateGame_dead _ _ fuel g s hD, ?_⟩
  induction n with
  | zero => rfl
  | succ n ih =>
    simp only [List.replicate_succ, runFrom, handle]
    rw [updateGame_dead _ _ fuel g s hD]
    exact ih

/-- C6, three ticks after the snake has run into itself. -/
theorem tick_game_over_identity_witness :
    gameOverState.inGame = false ∧
    (runFrom BOARD_WIDTH BOARD_HEIGHT 0 [Event.tick, Event.tick, Event.tick]
      (gameOverState, constRng 0)).map (fun r => r.1) = some gameOverState := by
  refine ⟨rfl, ?_⟩
  have h := (tick_game_over_identity 0 (constRng 0) gameOverState 3 rfl).2
  simp only [List.replicate] at h
  rw [h]
  rfl

/-- C7: from any state, `initGame` on the 20x20 board returns as soon as one of
the first `fuel + 1` cells drawn is off the three start cells, and it leaves the
snake `[(10,10),(9,10),(8,10)]`, head first, which is
`(W/2,H/2),(W/2-1,H/2),(W/2-2,H/2)`, the direction Right, the game on, and a
food that is on the board and on none of the three cells. -/
theorem initGame_start (fuel : Nat) (g : Rng) (s : SnakeGame)
    (hF : FreeWithin BOARD_WIDTH BOARD_HEIGHT fuel g [(10, 10), (9, 10), (8, 10)]) :
    ([(10, 10), (9, 10), (8, 10)] : List QPoint) =
      [(Int.tdiv BOARD_WIDTH 2, Int.tdiv BOARD_HEIGHT 2),
       (Int.tdiv BOARD_WIDTH 2 - 1, Int.tdiv BOARD_HEIGHT 2),
       (Int.tdiv BOARD_WIDTH 2 - 2, Int.tdiv BOARD_HEIGHT 2)] ∧
    ∃ s2 g2, initGame BOARD_WIDTH BOARD_HEIGHT fuel g s = some (s2, g2) ∧
      s2.snake = [(10, 10), (9, 10), (8, 10)] ∧ s2.dir = Direction.RIGHT ∧ s2.inGame = true ∧
      onBoard BOARD_WIDTH BOARD_HEIGHT s2.food ∧ s2.food ∉ [(10, 10), (9, 10), (8, 10)] := by
  have hcells : ([(10, 10), (9, 10), (8, 10)] : List QPoint) =
      [(Int.tdiv BOARD_WIDTH 2, Int.tdiv BOARD_HEIGHT 2),
       (Int.tdiv BOARD_WIDTH 2 - 1, Int.tdiv BOARD_HEIGHT 2),
       (Int.tdiv BOARD_WIDTH 2 - 2, Int.tdiv BOARD_HEIGHT 2)] := by decide
  refine ⟨hcells, ?_⟩
  rw [hcells] at hF
  have hs := (initGame_isSome BOARD_WIDTH BOARD_HEIGHT fuel g s).mpr hF
  obtain ⟨r, hr⟩ := Option.isSome_iff_exists.mp hs
  obtain ⟨c1, c2, c3, -, c5, k, c6⟩ := initGame_some BOARD_WIDTH BOARD_HEIGHT fuel g s r.1 r.2 hr
  rw [← hcells] at c1
  refine ⟨r.1, r.2, hr, c1, c2, c3, ?_, ?_⟩
  · rw [c6]
    exact drawCell_onBoard BOARD_WIDTH BOARD_HEIGHT (by decide) (by decide) g k
  · rw [← c1]
    exact c5

/-- C7, a restart of the game that is over, with the first drawn cell on the
snake: the state is the start state with the food at `(3,3)`. -/
theorem initGame_start_witness :
    ∃ s2 g2, initGame BOARD_WIDTH BOARD_HEIGHT 1 retryRng gameOverState = some (s2, g2) ∧
      s2.snake = [(10, 10), (9, 10), (8, 10)] ∧ s2.dir = Direction.RIGHT ∧ s2.inGame = true ∧
      s2.food ∉ [(10, 10), (9, 10), (8, 10)] := by
  obtain ⟨-, s2, g2, h1, h2, h3, h4, -, h6⟩ :=
    initGame_start 1 retryRng gameOverState ⟨1, Nat.le_refl 1, by decide⟩
  exact ⟨s2, g2, h1, h2, h3, h4, h6⟩

/-- C8: in every state reachable from the constructor by ticks, direction
requests, restarts and other key presses, also when the game is over, the food
is no cell of the snake. -/
theorem food_never_on_snake (s : SnakeGame) (h : Reachable BOARD_WIDTH BOARD_HEIGHT s) :
    s.food ∉ s.snake := by
  refine reachable_induction BOARD_WIDTH BOARD_HEIGHT (fun t => t.food ∉ t.snake) ?_ ?_ s h
  · intro fuel g t g2 hc
    exact (construct_some BOARD_WIDTH BOARD_HEIGHT fuel g t g2 hc).2.2.2.2.1
  · intro fuel e t g t2 g2 hP hh
    exact handle_food_off_snake BOARD_WIDTH BOARD_HEIGHT fuel e t g t2 g2 hP hh

/-- C8, the state after a wall hit: the snake has run Right from the start
until its head left the board at `(20,10)`; the game is over and the food
`(3,3)` is not on the snake. -/
theorem food_never_on_snake_witness :
    Reachable BOARD_WIDTH BOARD_HEIGHT wallHitState ∧ wallHitState.food ∉ wallHitState.snake := by
  have hr : Reachable BOARD_WIDTH BOARD_HEIGHT wallHitState :=
    ⟨0, constRng 3, List.replicate 10 Event.tick, _, rfl⟩
  exact ⟨hr, food_never_on_snake wallHitState hr⟩

/-- C9: in every reachable state in which the game is on the snake has no
duplicate cell; and a tick from such a state, when it returns, leaves a snake
with a head cell `nh` for which the self check of `checkCollision` fires exactly
when `nh` occurs twice in the snake as it is after the move, the game being over
after the tick exactly when `nh` is off the board or occurs twice; a snake that
is still in game has no duplicate cell. -/
theorem snake_nodup_while_in_game (s : SnakeGame) (h : Reachable BOARD_WIDTH BOARD_HEIGHT s) :
    (s.inGame = true → s.snake.Nodup) ∧
    ∀ fuel g s2 g2, s.inGame = true →
      updateGame BOARD_WIDTH BOARD_HEIGHT fuel g s = some (s2, g2) →
      ∃ nh, s2.snake[0]? = some nh ∧
        ((s2.snake.tail.any fun c => c == nh) = true ↔ s2.snake.count nh = 2) ∧
        (s2.inGame = false ↔ (¬ onBoard BOARD_WIDTH BOARD_HEIGHT nh ∨ s2.snake.count nh = 2)) ∧
        (s2.inGame = true → s2.snake.Nodup) := by
  have hnd : s.inGame = true → s.snake.Nodup := by
    refine reachable_induction BOARD_WIDTH BOARD_HEIGHT
      (fun t => t.inGame = true → t.snake.Nodup) ?_ ?_ s h
    · intro fuel g t g2 hc _
      rw [(construct_some BOARD_WIDTH BOARD_HEIGHT fuel g t g2 hc).1]
      exact initial_snake_nodup _ _
    · intro fuel e t g t2 g2 hP hh
      exact handle_nodup BOARD_WIDTH BOARD_HEIGHT fuel e t g t2 g2 hP hh
  refine ⟨hnd, ?_⟩
  intro fuel g s2 g2 hA hu
  cases hS : s.snake with
  | nil =>
    rw [updateGame_nil _ _ fuel g s hA hS] at hu
    simp at hu
  | cons first rest =>
    obtain ⟨c1, -, c3, -, -⟩ :=
      updateGame_alive_some BOARD_WIDTH BOARD_HEIGHT fuel g s first rest hA hS s2 g2 hu
    have hshape : ∃ t, s2.snake = newHead s.dir first :: t ∧ t.Nodup := by
      by_cases he : newHead s.dir first = s.food
      · exact ⟨_, by rw [c1, if_pos he], hnd hA⟩
      · exact ⟨_, by rw [c1, if_neg he], (hnd hA).sublist (List.dropLast_sublist _)⟩
    obtain ⟨t, ht, htn⟩ := hshape
    have hcount : s2.snake.count (newHead s.dir first) = 2 ↔ newHead s.dir first ∈ t := by
      rw [ht, List.count_cons_self]
      constructor
      · intro h2
        exact List.count_pos_iff.mp (by omega)
      · intro hm
        rw [count_eq_one_of_nodup t _ htn hm]
    rw [ht, List.tail_cons] at c3
    refine ⟨newHead s.dir first, by rw [ht]; simp, ?_, ?_, ?_⟩
    · rw [hcount, ht, List.tail_cons]
      exact any_beq_eq_true t _
    · rw [hcount, ← Bool.not_eq_true, c3, not_and_or, not_not]
    · intro hA2
      rw [ht]
      exact List.nodup_cons.mpr ⟨(c3.mp hA2).2, htn⟩

/-- C9, the start state and its first tick: the start snake has no duplicate
cell, and neither has the snake `[(11,10),(10,10),(9,10)]` the tick leaves. -/
theorem snake_nodup_while_in_game_witness :
    Reachable BOARD_WIDTH BOARD_HEIGHT (startState (3, 3)) ∧
    (startState (3, 3)).snake.Nodup ∧
    ∃ s2 g2, updateGame BOARD_WIDTH BOARD_HEIGHT 0 (constRng 3) (startState (3, 3))
      = some (s2, g2) ∧ s2.snake.Nodup := by
  have hr : Reachable BOARD_WIDTH BOARD_HEIGHT (startState (3, 3)) :=
    ⟨0, constRng 3, [], _, rfl⟩
  obtain ⟨h1, h2⟩ := snake_nodup_while_in_game (startState (3, 3)) hr
  refine ⟨hr, h1 rfl, ?_⟩
  have hu : updateGame BOARD_WIDTH BOARD_HEIGHT 0 (constRng 3) (startState (3, 3))
      = some ({ startState (3, 3) with snake := [(11, 10), (10, 10), (9, 10)] }, constRng 3) :=
    rfl
  obtain ⟨nh, -, -, -, h6⟩ := h2 0 (constRng 3) _ _ rfl hu
  exact ⟨_, _, hu, h6 rfl⟩

/-- C10: the guard of `keyPressEvent` compares a request with the direction
stored by the request before it, not with the direction of the last move.  After
construction the requests Up and Left, with no tick between them, leave the
direction Left while the snake `[(10,10),(9,10),(8,10)]` has last moved Right;
the next tick computes the new head `(9,10)`, the second cell of the snake, and
the game is over. -/
theorem two_requests_reverse_into_neck :
    (run BOARD_WIDTH BOARD_HEIGHT 0 (constRng 3)
        [Event.key Key.Key_Up, Event.key Key.Key_Left]).map (fun r => r.1)
      = some { snake := [(10, 10), (9, 10), (8, 10)], food := (3, 3), dir := Direction.LEFT,
               inGame := true, timerActive := true } ∧
    newHead Direction.LEFT (10, 10) = (9, 10) ∧
    ([(10, 10), (9, 10), (8, 10)] : List QPoint)[1]? = some (9, 10) ∧
    (run BOARD_WIDTH BOARD_HEIGHT 0 (constRng 3)
        [Event.key Key.Key_Up, Event.key Key.Key_Left, Event.tick]).map (fun r => r.1)
      = some { snake := [(9, 10), (10, 10), (9, 10)], food := (3, 3), dir := Direction.LEFT,
               inGame := false, timerActive := false } := by
  decide

/-- C11: a game that is over is left only through `initGame`.  In a state in
which the game is over a tick returns the same state, every direction request
leaves the game over, and so does every event other than the Space key; and in
any state a direction request leaves the flag, the snake and the food as they
are. -/
theorem game_over_left_only_by_restart (fuel : Nat) (g : Rng) (s : SnakeGame) :
    (s.inGame = false →
      updateGame BOARD_WIDTH BOARD_HEIGHT fuel g s = some (s, g) ∧
      (∀ r : Direction, ∃ s2 g2,
        keyPressEvent BOARD_WIDTH BOARD_HEIGHT fuel g (arrowKey r) s = some (s2, g2) ∧
        s2.inGame = false) ∧
      (∀ e : Event, e ≠ Event.key Key.Key_Space → ∃ s2 g2,
        handle BOARD_WIDTH BOARD_HEIGHT fuel e (s, g) = some (s2, g2) ∧ s2.inGame = false)) ∧
    (∀ r : Direction, ∃ s2 g2,
      keyPressEvent BOARD_WIDTH BOARD_HEIGHT fuel g (arrowKey r) s = some (s2, g2) ∧
      s2.inGame = s.inGame ∧ s2.snake = s.snake ∧ s2.food = s.food) := by
  have harrow : ∀ r : Direction, arrowKey r ≠ Key.Key_Space := by
    intro r
    cases r <;> simp [arrowKey]
  have hkey : ∀ k : Key, k ≠ Key.Key_Space → ∃ s2 g2,
      keyPressEvent BOARD_WIDTH BOARD_HEIGHT fuel g k s = some (s2, g2) ∧
      s2.inGame = s.inGame ∧ s2.snake = s.snake ∧ s2.food = s.food := by
    intro k hk
    obtain ⟨d, hd⟩ := keyPressEvent_not_space BOARD_WIDTH BOARD_HEIGHT fuel g k s hk
    exact ⟨_, _, hd, rfl, rfl, rfl⟩
  refine ⟨fun hD => ⟨updateGame_dead _ _ fuel g s hD, ?_, ?_⟩, fun r => hkey _ (harrow r)⟩
  · intro r
    obtain ⟨s2, g2, h1, h2, -⟩ := hkey _ (harrow r)
    exact ⟨s2, g2, h1, by rw [h2, hD]⟩
  · intro e he
    cases e with
    | tick => exact ⟨s, g, updateGame_dead _ _ fuel g s hD, hD⟩
    | key k =>
      have hk : k ≠ Key.Key_Space := fun h => he (by rw [h])
      obtain ⟨s2, g2, h1, h2, -⟩ := hkey k hk
      exact ⟨s2, g2, h1, by rw [h2, hD]⟩

/-- C11, after the snake has run into itself: a tick and the request Left both
leave the game over. -/
theorem game_over_left_only_by_restart_witness :
    updateGame BOARD_WIDTH BOARD_HEIGHT 0 (constRng 0) gameOverState
      = some (gameOverState, constRng 0) ∧
    ∃ s2 g2, keyPressEvent BOARD_WIDTH BOARD_HEIGHT 0 (constRng 0) Key.Key_Left gameOverState
      = some (s2, g2) ∧ s2.inGame = false := by
  obtain ⟨h1, h2, -⟩ := (game_over_left_only_by_restart 0 (constRng 0) gameOverState).1 rfl
  exact ⟨h1, h2 Direction.LEFT⟩

/-- C12: the Space key in a state that is in game changes nothing; in a state
in which the game is over it does what `initGame` does and starts the timer: as
soon as a cell off the three start cells is drawn within the fuel it returns,
with the snake, the food, the direction and the flag that `initGame` returns,
namely the snake `[(10,10),(9,10),(8,10)]`, the direction Right, the game on and
a food on the board and off the snake. -/
theorem space_key_restarts (fuel : Nat) (g : Rng) (s : SnakeGame) :
    (s.inGame = true →
      keyPressEvent BOARD_WIDTH BOARD_HEIGHT fuel g Key.Key_Space s = some (s, g)) ∧
    (s.inGame = false →
      keyPressEvent BOARD_WIDTH BOARD_HEIGHT fuel g Key.Key_Space s =
        (initGame BOARD_WIDTH BOARD_HEIGHT fuel g s).map
          (fun r => ({ r.1 with timerActive := true }, r.2)) ∧
      (FreeWithin BOARD_WIDTH BOARD_HEIGHT fuel g [(10, 10), (9, 10), (8, 10)] →
        ∃ r s2 g2, initGame BOARD_WIDTH BOARD_HEIGHT fuel g s = some (r, g2) ∧
          keyPressEvent BOARD_WIDTH BOARD_HEIGHT fuel g Key.Key_Space s = some (s2, g2) ∧
          s2.snake = r.snake ∧ s2.food = r.food ∧ s2.dir = r.dir ∧ s2.inGame = r.inGame ∧
          s2.snake = [(10, 10), (9, 10), (8, 10)] ∧ s2.dir = Direction.RIGHT ∧
          s2.inGame = true ∧ onBoard BOARD_WIDTH BOARD_HEIGHT s2.food ∧
          s2.food ∉ s2.snake)) := by
  constructor
  · intro hA
    rw [keyPressEvent_space, if_pos hA]
  · intro hD
    have hsp : keyPressEvent BOARD_WIDTH BOARD_HEIGHT fuel g Key.Key_Space s =
        (initGame BOARD_WIDTH BOARD_HEIGHT fuel g s).map
          (fun r => ({ r.1 with timerActive := true }, r.2)) := by
      rw [keyPressEvent_space, if_neg (by rw [hD]; exact Bool.false_ne_true)]
    refine ⟨hsp, ?_⟩
    intro hF
    have hcells : ([(10, 10), (9, 10), (8, 10)] : List QPoint) =
        [(Int.tdiv BOARD_WIDTH 2, Int.tdiv BOARD_HEIGHT 2),
         (Int.tdiv BOARD_WIDTH 2 - 1, Int.tdiv BOARD_HEIGHT 2),
         (Int.tdiv BOARD_WIDTH 2 - 2, Int.tdiv BOARD_HEIGHT 2)] := by decide
    rw [hcells] at hF
    have hs := (initGame_isSome BOARD_WIDTH BOARD_HEIGHT fuel g s).mpr hF
    obtain ⟨r, hr⟩ := Option.isSome_iff_exists.mp hs
    obtain ⟨c1, c2, c3, -, c5, k, c6⟩ :=
      initGame_some BOARD_WIDTH BOARD_HEIGHT fuel g s r.1 r.2 hr
    rw [← hcells] at c1
    refine ⟨r.1, { r.1 with timerActive := true }, r.2, hr, ?_, rfl, rfl, rfl, rfl, c1, c2, c3,
      ?_, c5⟩
    · rw [hsp, hr]
      rfl
    · show onBoard BOARD_WIDTH BOARD_HEIGHT r.1.food
      rw [c6]
      exact drawCell_onBoard BOARD_WIDTH BOARD_HEIGHT (by decide) (by decide) g k

/-- C12, the Space key in the start state, which is in game, and after the
snake has run into itself, where the game starts again with the food at
`(3,3)`. -/
theorem space_key_restarts_witness :
    keyPressEvent BOARD_WIDTH BOARD_HEIGHT 1 retryRng Key.Key_Space (startState (3, 3))
      = some (startState (3, 3), retryRng) ∧
    (keyPressEvent BOARD_WIDTH BOARD_HEIGHT 1 retryRng Key.Key_Space gameOverState).map
      (fun r => r.1) = some (startState (3, 3)) := by
  refine ⟨(space_key_restarts 1 retryRng (startState (3, 3))).1 rfl, ?_⟩
  rw [((space_key_restarts 1 retryRng gameOverState).2 rfl).1]
  decide

/-- C13, as the claim has it, fails: with the head at `(19,10)` and the
direction Right the tick ends the game with the snake
`[(20,10),(19,10),(18,10)]`; the last cell `(17,10)` of the snake of before the
tick is gone, so the snake is not the new head in front of the complete snake. -/
theorem wall_tick_drops_last_cell :
    (updateGame BOARD_WIDTH BOARD_HEIGHT 0 (constRng 0) wallState).map (fun r => r.1)
      = some { snake := [(20, 10), (19, 10), (18, 10)], food := (3, 3), dir := Direction.RIGHT,
               inGame := false, timerActive := false } ∧
    ¬ ((updateGame BOARD_WIDTH BOARD_HEIGHT 0 (constRng 0) wallState).map (fun r => r.1.snake)
      = some (newHead wallState.dir (19, 10) :: wallState.snake)) := by
  decide

/-- C13, amended: in a state that is in game and whose shifted head is off the
board, a tick returns, the game is over after it, and the snake it leaves is the
new head followed by the snake of before the tick without its last cell;
only when the new head is the food, which takes a food that is off the board,
is it followed by the complete snake.  The direction is unchanged. -/
theorem wall_tick (fuel : Nat) (g : Rng) (s : SnakeGame) (first : QPoint)
    (rest : List QPoint) (hA : s.inGame = true) (hS : s.snake = first :: rest)
    (hOut : ¬ onBoard BOARD_WIDTH BOARD_HEIGHT (newHead s.dir first))
    (hF : newHead s.dir first = s.food →
      FreeWithin BOARD_WIDTH BOARD_HEIGHT fuel g (newHead s.dir first :: s.snake)) :
    ∃ s2 g2, updateGame BOARD_WIDTH BOARD_HEIGHT fuel g s = some (s2, g2) ∧
      s2.inGame = false ∧ s2.dir = s.dir ∧
      s2.snake = (if newHead s.dir first = s.food then newHead s.dir first :: s.snake
        else newHead s.dir first :: s.snake.dropLast) ∧
      (onBoard BOARD_WIDTH BOARD_HEIGHT s.food →
        s2.snake = newHead s.dir first :: s.snake.dropLast ∧ s2.food = s.food) := by
  have hsome := (updateGame_alive_isSome BOARD_WIDTH BOARD_HEIGHT fuel g s first rest hA hS).mpr hF
  obtain ⟨r, hr⟩ := Option.isSome_iff_exists.mp hsome
  obtain ⟨c1, c2, c3, c4, -⟩ :=
    updateGame_alive_some BOARD_WIDTH BOARD_HEIGHT fuel g s first rest hA hS r.1 r.2 hr
  refine ⟨r.1, r.2, hr, ?_, c2, c1, ?_⟩
  · rw [← Bool.not_eq_true]
    exact fun h => hOut (c3.mp h).1
  · intro hfood
    have he : newHead s.dir first ≠ s.food := fun h => hOut (by rw [h]; exact hfood)
    rw [if_neg he] at c1 c4
    exact ⟨c1, c4.1⟩

/-- C13, the scenario: head at `(19,10)`, direction Right, food at `(3,3)`. -/
theorem wall_tick_witness :
    ∃ s2 g2, updateGame BOARD_WIDTH BOARD_HEIGHT 0 (constRng 0) wallState = some (s2, g2) ∧
      s2.inGame = false ∧ s2.snake = [(20, 10), (19, 10), (18, 10)] := by
  obtain ⟨s2, g2, h1, h2, -, -, h4⟩ := wall_tick 0 (constRng 0) wallState (19, 10)
    [(18, 10), (17, 10)] rfl rfl (by unfold onBoard; decide) (fun h => absurd h (by decide))
  exact ⟨s2, g2, h1, h2, by rw [(h4 (by unfold onBoard; decide)).1]; decide⟩

/-- C14, as the claim has it, fails: when the snake lies on every cell of the
20x20 board, `spawnFood` does not return for any number of iterations of its
loop. -/
theorem spawnFood_loops_on_full_board :
    ¬ ∃ fuel, (spawnFood BOARD_WIDTH BOARD_HEIGHT fuel (constRng 0) fullBoardState).isSome
      = true := by
  rintro ⟨fuel, h⟩
  rw [spawnFood_none_of_full BOARD_WIDTH BOARD_HEIGHT (by decide) (by decide) fuel (constRng 0)
    fullBoardState (fun p hp => mem_boardCells BOARD_WIDTH BOARD_HEIGHT p hp)] at h
  simp at h

/-- C14, amended: `spawnFood` returns after finitely many iterations of its
loop if and only if one of the cells it draws is off the snake, and then it
returns as soon as the number of iterations allowed reaches the index of such a
cell; when the snake lies on every cell of the board it never returns, whatever
is drawn. -/
theorem spawnFood_returns_iff (g : Rng) (s : SnakeGame) :
    ((∃ fuel, (spawnFood BOARD_WIDTH BOARD_HEIGHT fuel g s).isSome = true) ↔
      ∃ k, drawCell BOARD_WIDTH BOARD_HEIGHT g k ∉ s.snake) ∧
    (∀ k, drawCell BOARD_WIDTH BOARD_HEIGHT g k ∉ s.snake →
      ∀ fuel, k ≤ fuel → (spawnFood BOARD_WIDTH BOARD_HEIGHT fuel g s).isSome = true) ∧
    ((∀ p, onBoard BOARD_WIDTH BOARD_HEIGHT p → p ∈ s.snake) →
      ∀ fuel, spawnFood BOARD_WIDTH BOARD_HEIGHT fuel g s = none) := by
  refine ⟨⟨?_, ?_⟩, ?_, ?_⟩
  · rintro ⟨fuel, h⟩
    obtain ⟨k, -, hk⟩ := (spawnFood_isSome BOARD_WIDTH BOARD_HEIGHT fuel g s).mp h
    exact ⟨k, hk⟩
  · rintro ⟨k, hk⟩
    exact ⟨k, (spawnFood_isSome BOARD_WIDTH BOARD_HEIGHT k g s).mpr ⟨k, Nat.le_refl k, hk⟩⟩
  · intro k hk fuel hle
    exact (spawnFood_isSome BOARD_WIDTH BOARD_HEIGHT fuel g s).mpr ⟨k, hle, hk⟩
  · intro hfull fuel
    exact spawnFood_none_of_full BOARD_WIDTH BOARD_HEIGHT (by decide) (by decide) fuel g s hfull

/-- C14, two runs: on the start snake the second cell drawn is free and
`spawnFood` returns within one iteration; on the full board it does not return
within a thousand. -/
theorem spawnFood_returns_iff_witness :
    (spawnFood BOARD_WIDTH BOARD_HEIGHT 1 retryRng (startState (0, 0))).isSome = true ∧
    spawnFood BOARD_WIDTH BOARD_HEIGHT 1000 retryRng fullBoardState = none := by
  refine ⟨(spawnFood_returns_iff retryRng (startState (0, 0))).2.1 1 (by decide) 1
      (Nat.le_refl 1), ?_⟩
  exact (spawnFood_returns_iff retryRng fullBoardState).2.2
    (fun p hp => mem_boardCells BOARD_WIDTH BOARD_HEIGHT p hp) 1000

/-- C15: in every reachable state the snake has at least three cells, so it
has a first cell for `moveSnake` to read, and the snake `moveSnake` leaves has at
least three cells too, so `checkCollision` reads a first cell and returns. -/
theorem snake_length_at_least_three (s : SnakeGame)
    (h : Reachable BOARD_WIDTH BOARD_HEIGHT s) :
    3 ≤ s.snake.length ∧ 1 ≤ s.snake.length ∧
    (∃ first rest, s.snake = first :: rest) ∧
    ∀ fuel g r, moveSnake BOARD_WIDTH BOARD_HEIGHT fuel g s = some r →
      3 ≤ r.1.snake.length ∧ (checkCollision BOARD_WIDTH BOARD_HEIGHT r.1).isSome = true := by
  have hlen : 3 ≤ s.snake.length := by
    refine reachable_induction BOARD_WIDTH BOARD_HEIGHT (fun t => 3 ≤ t.snake.length) ?_ ?_ s h
    · intro fuel g t g2 hc
      rw [(construct_some BOARD_WIDTH BOARD_HEIGHT fuel g t g2 hc).1]
      simp
    · intro fuel e t g t2 g2 hP hh
      exact handle_length BOARD_WIDTH BOARD_HEIGHT fuel e t g t2 g2 hP hh
  cases hS : s.snake with
  | nil =>
    rw [hS] at hlen
    simp at hlen
  | cons first rest =>
    rw [hS] at hlen
    refine ⟨hlen, by omega, ⟨first, rest, rfl⟩, ?_⟩
    intro fuel g r hm
    have hr := moveSnake_some BOARD_WIDTH BOARD_HEIGHT fuel g s first rest hS r hm
    have hshape : ∃ t, r.1.snake = newHead s.dir first :: t ∧ 2 ≤ t.length := by
      rw [List.length_cons] at hlen
      by_cases he : newHead s.dir first = s.food
      · refine ⟨_, by rw [hr, if_pos he], ?_⟩
        rw [hS, List.length_cons]
        omega
      · refine ⟨_, by rw [hr, if_neg he], ?_⟩
        rw [hS, List.length_dropLast, List.length_cons]
        omega
    obtain ⟨t, ht, htl⟩ := hshape
    obtain ⟨s3, h3, -⟩ := checkCollision_cons BOARD_WIDTH BOARD_HEIGHT r.1 _ t ht
    refine ⟨?_, by rw [h3]; rfl⟩
    rw [ht, List.length_cons]
    omega

/-- C15, the state after the wall hit, whose snake still has three cells. -/
theorem snake_length_at_least_three_witness :
    Reachable BOARD_WIDTH BOARD_HEIGHT wallHitState ∧ 3 ≤ wallHitState.snake.length := by
  have hr : Reachable BOARD_WIDTH BOARD_HEIGHT wallHitState :=
    ⟨0, constRng 3, List.replicate 10 Event.tick, _, rfl⟩
  exact ⟨hr, (snake_length_at_least_three wallHitState hr).1⟩

/-- C16, as the claim has it, fails on the board of width 3 and height 1:
`initGame` returns there with the snake `[(1,0),(0,0),(-1,0)]`, whose last cell
`(W/2 - 2, H/2)` is left of the board. -/
theorem initGame_off_board_at_width_three :
    (initGame 3 1 0 (constRng 2) gameOverState).map (fun r => r.1)
      = some { snake := [(1, 0), (0, 0), (-1, 0)], food := (2, 0), dir := Direction.RIGHT,
               inGame := true, timerActive := false } ∧
    ¬ onBoard 3 1 (Int.tdiv 3 2 - 2, Int.tdiv 1 2) := by
  refine ⟨by decide, ?_⟩
  unfold onBoard
  decide

/-- C16, amended: with the board size as a parameter of `initGame`, on every
board of width at least 4 and height at least 1 the three start cells
`(W/2,H/2), (W/2-1,H/2), (W/2-2,H/2)` are on the board; `initGame` returns as
soon as a cell off them is drawn within the fuel, with the snake on these cells,
the direction Right and the game on; and there are draws on which it returns at
once. -/
theorem initGame_cells_on_board (W H : Int) (hW : 4 ≤ W) (hH : 1 ≤ H) (fuel : Nat) (g : Rng)
    (s : SnakeGame)
    (hF : FreeWithin W H fuel g [(Int.tdiv W 2, Int.tdiv H 2), (Int.tdiv W 2 - 1, Int.tdiv H 2),
      (Int.tdiv W 2 - 2, Int.tdiv H 2)]) :
    (∃ s2 g2, initGame W H fuel g s = some (s2, g2) ∧
      s2.snake = [(Int.tdiv W 2, Int.tdiv H 2), (Int.tdiv W 2 - 1, Int.tdiv H 2),
        (Int.tdiv W 2 - 2, Int.tdiv H 2)] ∧
      (∀ c ∈ s2.snake, onBoard W H c) ∧ s2.dir = Direction.RIGHT ∧ s2.inGame = true) ∧
    (initGame W H 0 (aheadRng W H) s).isSome = true := by
  constructor
  · have hs := (initGame_isSome W H fuel g s).mpr hF
    obtain ⟨r, hr⟩ := Option.isSome_iff_exists.mp hs
    obtain ⟨c1, c2, c3, -⟩ := initGame_some W H fuel g s r.1 r.2 hr
    refine ⟨r.1, r.2, hr, c1, ?_, c2, c3⟩
    rw [c1]
    exact initial_cells_onBoard W H hW hH
  · rw [initGame_isSome]
    refine ⟨0, Nat.le_refl 0, ?_⟩
    have h1 : Int.tdiv W 2 = W / 2 := Int.tdiv_eq_ediv (by omega) (by omega)
    have hx : ((aheadRng W H (2 * 0) : Nat) : Int) % W = Int.tdiv W 2 + 1 := by
      show (((Int.tdiv W 2 + 1).toNat : Nat) : Int) % W = Int.tdiv W 2 + 1
      rw [Int.toNat_of_nonneg (by omega)]
      exact Int.emod_eq_of_lt (by omega) (by omega)
    unfold drawCell
    rw [hx]
    simp only [List.mem_cons, Prod.mk.injEq, List.mem_singleton, List.not_mem_nil, or_false]
    omega

/-- C16, the board of width 4 and height 1, the smallest one: the snake is
put on `(2,0),(1,0),(0,0)` and the food on the last free cell `(3,0)`. -/
theorem initGame_cells_on_board_witness :
    ∃ s2 g2, initGame 4 1 0 (constRng 3) gameOverState = some (s2, g2) ∧
      s2.snake = [(2, 0), (1, 0), (0, 0)] ∧ (∀ c ∈ s2.snake, onBoard 4 1 c) ∧
      s2.dir = Direction.RIGHT ∧ s2.inGame = true := by
  obtain ⟨⟨s2, g2, h1, h2, h3, h4, h5⟩, -⟩ := initGame_cells_on_board 4 1 (by decide) (by decide)
    0 (constRng 3) gameOverState ⟨0, Nat.le_refl 0, by decide⟩
  exact ⟨s2, g2, h1, by rw [h2]; decide, h3, h4, h5⟩

/-- C17: in every state reachable on the 20x20 board the food is on the board,
`0 <= x < 20` and `0 <= y < 20`; while the game is on every cell of the snake is
on the board; and in every reachable state, the game over or not, every cell of
the snake at an index `>= 1` is on the board, so that only the head of a game
that is over can be off the board. -/
theorem cells_on_board (s : SnakeGame) (h : Reachable BOARD_WIDTH BOARD_HEIGHT s) :
    (0 ≤ s.food.1 ∧ s.food.1 < 20 ∧ 0 ≤ s.food.2 ∧ s.food.2 < 20) ∧
    (s.inGame = true → ∀ c ∈ s.snake, 0 ≤ c.1 ∧ c.1 < 20 ∧ 0 ≤ c.2 ∧ c.2 < 20) ∧
    (∀ i c, 1 ≤ i → s.snake[i]? = some c → 0 ≤ c.1 ∧ c.1 < 20 ∧ 0 ≤ c.2 ∧ c.2 < 20) := by
  have hinv : onBoard BOARD_WIDTH BOARD_HEIGHT s.food ∧
      (∀ c ∈ s.snake.tail, onBoard BOARD_WIDTH BOARD_HEIGHT c) ∧
      (s.inGame = true → ∀ c ∈ s.snake, onBoard BOARD_WIDTH BOARD_HEIGHT c) := by
    refine reachable_induction BOARD_WIDTH BOARD_HEIGHT
      (fun t => onBoard BOARD_WIDTH BOARD_HEIGHT t.food ∧
        (∀ c ∈ t.snake.tail, onBoard BOARD_WIDTH BOARD_HEIGHT c) ∧
        (t.inGame = true → ∀ c ∈ t.snake, onBoard BOARD_WIDTH BOARD_HEIGHT c)) ?_ ?_ s h
    · intro fuel g t g2 hc
      exact construct_onBoard BOARD_WIDTH BOARD_HEIGHT (by decide) (by decide) fuel g t g2 hc
    · intro fuel e t g t2 g2 hP hh
      exact handle_onBoard BOARD_WIDTH BOARD_HEIGHT (by decide) (by decide) fuel e t g t2 g2 hP hh
  obtain ⟨h1, h2, h3⟩ := hinv
  refine ⟨h1, h3, ?_⟩
  intro i c hi hc
  apply h2
  cases hS : s.snake with
  | nil =>
    rw [hS] at hc
    simp at hc
  | cons first rest =>
    rw [hS] at hc
    obtain ⟨j, rfl⟩ := Nat.exists_eq_add_of_le hi
    rw [Nat.add_comm, List.getElem?_cons_succ] at hc
    rw [List.tail_cons]
    exact List.getElem?_mem hc

/-- C17, the state after the wall hit: the game is over, the head `(20,10)` is
off the board, and the food and the two cells behind the head are on it. -/
theorem cells_on_board_witness :
    Reachable BOARD_WIDTH BOARD_HEIGHT wallHitState ∧
    wallHitState.snake[0]? = some (20, 10) ∧
    (∀ i c, 1 ≤ i → wallHitState.snake[i]? = some c →
      0 ≤ c.1 ∧ c.1 < 20 ∧ 0 ≤ c.2 ∧ c.2 < 20) := by
  have hr : Reachable BOARD_WIDTH BOARD_HEIGHT wallHitState :=
    ⟨0, constRng 3, List.replicate 10 Event.tick, _, rfl⟩
  exact ⟨hr, rfl, (cells_on_board wallHitState hr).2.2⟩

/-- C18: eating never ends the game.  In a reachable state that is in game, if
the new head a tick computes is the food of before the tick, then the tick
returns, as soon as `spawnFood` draws a free cell within its fuel, with the snake
grown by the new head and the game still on. -/
theorem eating_keeps_game_on (s : SnakeGame) (h : Reachable BOARD_WIDTH BOARD_HEIGHT s)
    (first : QPoint) (rest : List QPoint) (hA : s.inGame = true) (hS : s.snake = first :: rest)
    (he : newHead s.dir first = s.food) (fuel : Nat) (g : Rng)
    (hF : FreeWithin BOARD_WIDTH BOARD_HEIGHT fuel g (newHead s.dir first :: s.snake)) :
    ∃ s2 g2, updateGame BOARD_WIDTH BOARD_HEIGHT fuel g s = some (s2, g2) ∧
      s2.inGame = true ∧ s2.snake = newHead s.dir first :: s.snake := by
  have hoff : s.food ∉ s.snake := by
    refine reachable_induction BOARD_WIDTH BOARD_HEIGHT (fun t => t.food ∉ t.snake) ?_ ?_ s h
    · intro fuel g t g2 hc
      exact (construct_some BOARD_WIDTH BOARD_HEIGHT fuel g t g2 hc).2.2.2.2.1
    · intro fuel e t g t2 g2 hP hh
      exact handle_food_off_snake BOARD_WIDTH BOARD_HEIGHT fuel e t g t2 g2 hP hh
  have hon : onBoard BOARD_WIDTH BOARD_HEIGHT s.food := by
    have hinv := reachable_induction BOARD_WIDTH BOARD_HEIGHT
      (fun t => onBoard BOARD_WIDTH BOARD_HEIGHT t.food ∧
        (∀ c ∈ t.snake.tail, onBoard BOARD_WIDTH BOARD_HEIGHT c) ∧
        (t.inGame = true → ∀ c ∈ t.snake, onBoard BOARD_WIDTH BOARD_HEIGHT c))
      (fun fuel g t g2 hc =>
        construct_onBoard BOARD_WIDTH BOARD_HEIGHT (by decide) (by decide) fuel g t g2 hc)
      (fun fuel e t g t2 g2 hP hh =>
        handle_onBoard BOARD_WIDTH BOARD_HEIGHT (by decide) (by decide) fuel e t g t2 g2 hP hh)
      s h
    exact hinv.1
  have hsome := (updateGame_alive_isSome BOARD_WIDTH BOARD_HEIGHT fuel g s first rest hA hS).mpr
    (fun _ => hF)
  obtain ⟨r, hr⟩ := Option.isSome_iff_exists.mp hsome
  obtain ⟨c1, -, c3, -, -⟩ :=
    updateGame_alive_some BOARD_WIDTH BOARD_HEIGHT fuel g s first rest hA hS r.1 r.2 hr
  rw [if_pos he] at c1
  refine ⟨r.1, r.2, hr, ?_, c1⟩
  rw [c3, c1, List.tail_cons, he]
  exact ⟨hon, hoff⟩

/-- C18, the start snake with the food right in front of its head: the tick
eats it, the snake has four cells and the game is on. -/
theorem eating_keeps_game_on_witness :
    Reachable BOARD_WIDTH BOARD_HEIGHT (startState (11, 10)) ∧
    ∃ s2 g2, updateGame BOARD_WIDTH BOARD_HEIGHT 0 (constRng 3) (startState (11, 10))
        = some (s2, g2) ∧
      s2.inGame = true ∧ s2.snake = [(11, 10), (10, 10), (9, 10), (8, 10)] := by
  have hr : Reachable BOARD_WIDTH BOARD_HEIGHT (startState (11, 10)) :=
    ⟨0, eatRng, [], _, rfl⟩
  obtain ⟨s2, g2, h1, h2, h3⟩ := eating_keeps_game_on (startState (11, 10)) hr (10, 10)
    [(9, 10), (8, 10)] rfl rfl (by decide) 0 (constRng 3) ⟨0, Nat.le_refl 0, by decide⟩
  exact ⟨hr, s2, g2, h1, h2, by rw [h3]; decide⟩

/-- C19: moving into the cell the tail is leaving is no collision.  In a state
that is in game, whose snake has no duplicate cell and whose new head is on the
board, is not the food and is the last cell of the snake, a tick returns with
the game still on and with the snake rotated by one: the snake was `d ++ [nh]`
and is `nh :: d`. -/
theorem tail_cell_move (fuel : Nat) (g : Rng) (s : SnakeGame) (first : QPoint)
    (rest : List QPoint) (hA : s.inGame = true) (hS : s.snake = first :: rest)
    (hN : s.snake.Nodup) (hB : onBoard BOARD_WIDTH BOARD_HEIGHT (newHead s.dir first))
    (hNF : newHead s.dir first ≠ s.food)
    (hL : s.snake.getLast? = some (newHead s.dir first)) :
    ∃ s2, updateGame BOARD_WIDTH BOARD_HEIGHT fuel g s = some (s2, g) ∧
      s2.inGame = true ∧
      (∃ d, s.snake = d ++ [newHead s.dir first] ∧ s2.snake = newHead s.dir first :: d) ∧
      s2.snake = s.snake.rotateRight 1 ∧ s2.food = s.food ∧ s2.dir = s.dir := by
  have hsome := (updateGame_alive_isSome BOARD_WIDTH BOARD_HEIGHT fuel g s first rest hA hS).mpr
    (fun he => absurd he hNF)
  obtain ⟨r, hr⟩ := Option.isSome_iff_exists.mp hsome
  obtain ⟨c1, c2, c3, c4, -⟩ :=
    updateGame_alive_some BOARD_WIDTH BOARD_HEIGHT fuel g s first rest hA hS r.1 r.2 hr
  rw [if_neg hNF] at c1 c4
  obtain ⟨d, hd⟩ := List.getLast?_eq_some_iff.mp hL
  have hdrop : s.snake.dropLast = d := by rw [hd, List.dropLast_concat]
  rw [hdrop] at c1
  have hnd : newHead s.dir first ∉ d := by
    rw [hd] at hN
    intro hm
    exact (List.nodup_append.mp hN).2.2 hm (List.mem_singleton.mpr rfl)
  have hne : newHead s.dir first ≠ first := by
    cases s.dir <;> simp [newHead, Prod.ext_iff]
  have hdne : d ≠ [] := by
    intro h0
    rw [h0, hS] at hd
    simp only [List.nil_append, List.cons.injEq] at hd
    exact hne hd.1.symm
  have hrot : s.snake.rotateRight 1 = newHead s.dir first :: d := by
    have hlen : 0 < d.length := List.length_pos.mpr hdne
    have h1 : ¬ (d.length + 1 ≤ 1) := by omega
    have h2 : d.length + 1 - 1 % (d.length + 1) = d.length := by
      rw [Nat.mod_eq_of_lt (by omega)]
      omega
    rw [hd]
    unfold List.rotateRight
    simp only [List.length_append, List.length_singleton, h1, ↓reduceIte, h2,
      List.take_left', List.drop_left', List.singleton_append]
  have hg : r.2 = g := c4.2
  refine ⟨r.1, ?_, ?_, ⟨d, hd, c1⟩, by rw [c1, hrot], c4.1, c2⟩
  · rw [hr, ← hg]
  · rw [c3, c1, List.tail_cons]
    exact ⟨hB, hnd⟩

/-- C19, the scenario: the ring `[(5,5),(5,6),(6,6),(6,5)]` heading Right
becomes `[(6,5),(5,5),(5,6),(6,6)]` and the game is on. -/
theorem tail_cell_move_witness :
    ∃ s2, updateGame BOARD_WIDTH BOARD_HEIGHT 0 (constRng 0) ringState
        = some (s2, constRng 0) ∧
      s2.inGame = true ∧ s2.snake = [(6, 5), (5, 5), (5, 6), (6, 6)] := by
  obtain ⟨s2, h1, h2, -, h4, -⟩ := tail_cell_move 0 (constRng 0) ringState (5, 5)
    [(5, 6), (6, 6), (6, 5)] rfl rfl (by decide) (by unfold onBoard; decide) (by decide) rfl
  exact ⟨s2, h1, h2, by rw [h4]; decide⟩

end SnakeGame
